import Mathlib

/-!
# Autumn: erasure codec, placement policy and storage-node RPCs

A shallow embedding of the Go sources
`erasure_code/rs_codec.go`, `manager/stream_manager/policy.go`,
`node/node_service.go` and `node/node_recovery.go`.

Conventions of the embedding:

* a Go `[]byte` is a `List Nat`; every byte the code itself produces is
  reduced `% 256`;
* `uint32` arithmetic is arithmetic on `Nat` reduced `% 2 ^ 32`;
* a run-time panic (slice bounds, index out of range, division by zero, nil
  dereference) and a non-nil `error` both end a computation; for the codec both
  are `none`, for the RPC handlers they are separate constructors.
-/

namespace Autumn

/-! ## Machine arithmetic and byte slices -/

/-- Truncation of a natural number to `uint32`. -/
def u32 (x : Nat) : Nat := x % 2 ^ 32

/-- The `uint32` subtraction `a - b`, wrapping below zero. -/
def sub32 (a b : Nat) : Nat :=
  if b % 2 ^ 32 ≤ a % 2 ^ 32 then a % 2 ^ 32 - b % 2 ^ 32
  else 2 ^ 32 - (b % 2 ^ 32 - a % 2 ^ 32)

/-- Go `xs[a:b]`; `none` is the slice-bounds panic. -/
def slice (xs : List Nat) (a b : Nat) : Option (List Nat) :=
  if a ≤ b ∧ b ≤ xs.length then some ((xs.drop a).take (b - a)) else none

/-- Go `xs[a:]`; `none` is the slice-bounds panic. -/
def sliceFrom (xs : List Nat) (a : Nat) : Option (List Nat) :=
  if a ≤ xs.length then some (xs.drop a) else none

/-- Go `copy(dst[off:], src)`: overwrites `min (len dst - off) (len src)` bytes of
`dst` starting at `off`; `none` is the slice-bounds panic of `dst[off:]`. -/
def copyAt (dst : List Nat) (off : Nat) (src : List Nat) : Option (List Nat) :=
  if off ≤ dst.length then
    some (dst.take off ++ (src.take (dst.length - off) ++ dst.drop (off + src.length)))
  else none

/-- Go `binary.BigEndian.PutUint32(b, v)`; `none` is the panic on a short buffer. -/
def PutUint32 (b : List Nat) (v : Nat) : Option (List Nat) :=
  if 4 ≤ b.length then
    some ([v / 2 ^ 24 % 256, v / 2 ^ 16 % 256, v / 2 ^ 8 % 256, v % 256] ++ b.drop 4)
  else none

/-- Go `binary.BigEndian.Uint32(b)`; `none` is the panic on a short buffer. -/
def Uint32 (b : List Nat) : Option Nat :=
  match b with
  | b0 :: b1 :: b2 :: b3 :: _ =>
    some (b0 % 256 * 2 ^ 24 + b1 % 256 * 2 ^ 16 + b2 % 256 * 2 ^ 8 + b3 % 256)
  | _ => none

namespace utils

/-- Modelled from the spec: `utils.Ceil(size, align)` is not among the sources.
The spec counts `⌈actualSize / c⌉` cells where the code computes
`utils.Ceil(actualSize, cellSize) / cellSize`, so `Ceil` rounds `size` up to the
next multiple of `align` (in `uint32`). -/
def Ceil (size align : Nat) : Nat := u32 (u32 (size + align - 1) / align * align)

/-- Modelled from the spec: `utils.Min(a, b)` is not among the sources; the spec
copies `min(c, actualSize − t·c)` bytes where the code calls it. -/
def Min (a b : Nat) : Nat := if a < b then a else b

end utils

/-! ## The Reed–Solomon library (`github.com/klauspost/reedsolomon`)

The library is external to the repository and enters as a parameter. -/

namespace reedsolomon

/-- The value returned by `reedsolomon.New`. Each method takes the shard
buffers and, where Go mutates them in place, returns the new buffers; `none`
is a non-nil `error`. -/
structure Encoder where
  /-- `enc.Encode(shards)`. -/
  Encode : List (List Nat) → Option (List (List Nat))
  /-- `enc.Verify(shards)`, its boolean result. -/
  Verify : List (List Nat) → Bool
  /-- `enc.Reconstruct(shards)`. -/
  Reconstruct : List (List Nat) → Option (List (List Nat))

/-- The function `reedsolomon.New(dataShards, parityShards)`; `none` is a
non-nil `error`. -/
abbrev Library := Nat → Nat → Option Encoder

/-- The documented contract of the library that the codec relies on. -/
structure Lawful (New : Library) : Prop where
  /-- `New` rejects `dataShards = 0` and more than 256 shards in total. -/
  new_bounds : ∀ k m enc, New k m = some enc → 0 < k ∧ k + m ≤ 256
  /-- `Encode` accepts `k + m` buffers of one non-zero size. -/
  encode_ok : ∀ k m enc shards n, New k m = some enc → shards.length = k + m →
    0 < n → (∀ s ∈ shards, s.length = n) → ∃ out, enc.Encode shards = some out
  /-- `Encode` keeps the number of buffers. -/
  encode_length : ∀ k m enc shards out, New k m = some enc →
    enc.Encode shards = some out → out.length = shards.length
  /-- `Encode` keeps the size of the buffers. -/
  encode_size : ∀ k m enc shards out n, New k m = some enc →
    enc.Encode shards = some out → (∀ s ∈ shards, s.length = n) →
    ∀ s ∈ out, s.length = n
  /-- `Encode` overwrites the parity shards only. -/
  encode_data : ∀ k m enc shards out j, New k m = some enc →
    enc.Encode shards = some out → j < k → out[j]? = shards[j]?
  /-- `Verify` accepts what `Encode` produced. -/
  verify_encode : ∀ k m enc shards out, New k m = some enc →
    enc.Encode shards = some out → enc.Verify out = true

/-- A stand-in encoder with which the codec can be run: every parity shard is
a copy of data shard 0. -/
def mirrorEncoder (k m : Nat) : Encoder where
  Encode := fun shards =>
    if shards.length = k + m ∧ 0 < (shards.headD []).length ∧
        shards.all (fun s => s.length == (shards.headD []).length) then
      some (shards.take k ++ List.replicate m (shards.headD []))
    else none
  Verify := fun shards =>
    decide (shards.length = k + m) && (0 < (shards.headD []).length) &&
      shards.all (fun s => s.length == (shards.headD []).length) &&
      (shards.drop k == List.replicate m (shards.headD []))
  Reconstruct := fun shards =>
    if shards.length = k + m ∧ (shards.drop k == List.replicate m (shards.headD [])) then
      some shards
    else none

/-- The stand-in for `reedsolomon.New`. -/
def mirrorNew : Library := fun k m =>
  if 0 < k ∧ k + m ≤ 256 then some (mirrorEncoder k m) else none

end reedsolomon

/-! ## `erasure_code/rs_codec.go` -/

/-- The constant `metaSize`. -/
def metaSize : Nat := 4

namespace ReedSolomon

/-- One pass of the loop "fill the other cell" of `Encode`, for cell `k`. -/
def encodeCell (input : List Nat) (dataShards cellSize actualSize : Nat)
    (data : List (List Nat)) (k : Nat) : Option (List (List Nat)) :=
  let i := k / dataShards
  let j := k % dataShards
  let availData := utils.Min cellSize (sub32 actualSize (u32 (k * cellSize)))
  let lo := sub32 (u32 (k * cellSize)) metaSize
  let hi := u32 (lo + u32 availData)
  match slice input lo hi, data[j]? with
  | some src, some row =>
    match copyAt row (u32 (i * cellSize)) src with
    | some row1 => some (data.set j row1)
    | none => none
  | _, _ => none

/-- Lines 65–91 of `ReedSolomon.Encode`: the shard buffers are allocated and
the header and the payload are laid out cell by cell. -/
def fillCells (input : List Nat) (dataShards parityShards cellSize : Nat) :
    Option (List (List Nat)) :=
  let rawSize := u32 input.length
  let actualSize := u32 (rawSize + metaSize)
  let groupSize := u32 (dataShards * cellSize)
  -- division by `uint32(groupSize)`
  if groupSize = 0 then none else
  let clusterSize := u32 (u32 (actualSize + groupSize - 1) / groupSize * groupSize)
  -- division by `dataShards`
  if dataShards = 0 then none else
  let objectSize := clusterSize / dataShards
  let data := List.replicate (u32 (dataShards + parityShards)) (List.replicate objectSize 0)
  -- fill the first cell
  match data[0]? with
  | none => none
  | some row =>
    match PutUint32 row rawSize with
    | none => none
    | some row1 =>
      -- `int(cellSize) - metaSize` is negative below 4 and `input[0:size]` panics
      if cellSize < metaSize then none else
      let size := utils.Min input.length (cellSize - metaSize)
      match slice input 0 size with
      | none => none
      | some src =>
        match copyAt row1 metaSize src with
        | none => none
        | some row2 =>
          -- fill the other cells
          let cellNums := utils.Ceil actualSize cellSize / cellSize
          (List.range' 1 (cellNums - 1)).foldlM
            (encodeCell input dataShards cellSize actualSize) (data.set 0 row2)

/-- The function `ReedSolomon.Encode`. -/
def Encode (New : reedsolomon.Library) (input : List Nat)
    (dataShards parityShards cellSize : Nat) : Option (List (List Nat)) :=
  match New dataShards parityShards with
  | none => none
  | some enc =>
    match fillCells input dataShards parityShards cellSize with
    | none => none
    | some data => enc.Encode data

/-- One pass of the loop "join data" of `Decode`, for cell `k`. -/
def decodeCell (input : List (List Nat)) (dataShards cellSize : Nat)
    (fullData : List Nat) (k : Nat) : Option (List Nat) :=
  -- division by `dataShards`
  if dataShards = 0 then none else
  let i := k / dataShards
  let j := k % dataShards
  match input[j]? with
  | none => none
  | some shard =>
    match sliceFrom shard (u32 (i * cellSize)), sliceFrom fullData (u32 (k * cellSize)) with
    | some src, some dst =>
      match copyAt fullData (u32 (k * cellSize)) src with
      | none => none
      | some fullData1 =>
        -- utils.AssertTrue(n > 0)
        if 0 < min dst.length src.length then some fullData1 else none
    | _, _ => none

/-- Lines 46–56 of `ReedSolomon.Decode`: the payload length is read from the
header and the cells are joined. -/
def joinData (input : List (List Nat)) (dataShards cellSize : Nat) : Option (List Nat) :=
  match input[0]? with
  | none => none
  | some shard0 =>
    match slice shard0 0 metaSize with
    | none => none
    | some hdr =>
      match Uint32 hdr with
      | none => none
      | some dataLength =>
        let fullData := List.replicate (u32 (dataLength + metaSize)) 0
        let actualSize := fullData.length
        -- division by `cellSize`
        if cellSize = 0 then none else
        let cellNums := utils.Ceil (u32 actualSize) cellSize / cellSize
        match (List.range cellNums).foldlM
            (decodeCell input dataShards cellSize) fullData with
        | none => none
        | some fullData1 => sliceFrom fullData1 metaSize

/-- The function `ReedSolomon.Decode`. -/
def Decode (New : reedsolomon.Library) (input : List (List Nat))
    (dataShards parityShards cellSize : Nat) : Option (List Nat) :=
  match New dataShards parityShards with
  | none => none
  | some enc =>
    -- verify the shards, reconstruct when they do not verify
    match (if enc.Verify input then some input else enc.Reconstruct input) with
    | none => none
    | some input1 => joinData input1 dataShards cellSize

end ReedSolomon

/-- The 4-byte big-endian encoding of `R`, followed by the payload: the byte
string the cells are cut from. -/
def frame (P : List Nat) : List Nat :=
  [P.length / 2 ^ 24 % 256, P.length / 2 ^ 16 % 256, P.length / 2 ^ 8 % 256,
    P.length % 256] ++ P

/-- The byte the layout puts at offset `o` of data shard `j` once the cells
below `t` are placed: cell `(o / c) * k + j` of `F`, or zero padding. -/
def cellByte (F : List Nat) (k c t j o : Nat) : Nat :=
  if (o / c * k + j) < t ∧ (o / c * k + j) * c + o % c < F.length then
    F.getD ((o / c * k + j) * c + o % c) 0
  else 0

/-- The byte the finished layout puts at offset `o` of data shard `j`: byte
`((o / c) * k + j) * c + o % c` of `F` when there is one, zero padding otherwise. -/
def layoutByte (F : List Nat) (k c j o : Nat) : Nat :=
  if (o / c * k + j) * c + o % c < F.length then F.getD ((o / c * k + j) * c + o % c) 0
  else 0

/-- The first `k` of `shards` are buffers of `objectSize` bytes that hold the
finished layout of `F`. -/
def Layout (F : List Nat) (k c objectSize : Nat) (shards : List (List Nat)) : Prop :=
  ∀ j, j < k → ∃ row, shards[j]? = some row ∧ row.length = objectSize ∧
    ∀ o, o < objectSize → row.getD o 0 = layoutByte F k c j o

/-- The shard buffers once the cells below `t` are placed: `n` buffers of
`objectSize` bytes, the first `k` of them holding the cells. -/
def Placed (F : List Nat) (k c n objectSize t : Nat) (data : List (List Nat)) : Prop :=
  data.length = n ∧ (∀ s ∈ data, s.length = objectSize) ∧
    ∀ j o, j < k → o < objectSize → (data.getD j []).getD o 0 = cellByte F k c t j o

/-! ## The protocol messages (`proto/pb`) -/

namespace pb

/-- The values of `pb.Code` the handlers use. -/
inductive Code where
  | OK
  | EndOfStream
  | EndOfExtent
  | ERROR
deriving DecidableEq

/-- The message `pb.ExtentInfo`. -/
structure ExtentInfo where
  ExtentID : Nat
  Replicates : List Nat
  Parity : List Nat
  SealedLength : Nat
deriving DecidableEq

/-- The message `pb.RecoveryTask`. -/
structure RecoveryTask where
  ExtentID : Nat
  ReplaceID : Nat
deriving DecidableEq

/-- The message `pb.ReplicateBlocksRequest`. -/
structure ReplicateBlocksRequest where
  ExtentID : Nat
  Commit : Nat
  Blocks : List (List Nat)

/-- The message `pb.ReplicateBlocksResponse`. -/
structure ReplicateBlocksResponse where
  Code : Code
  Offsets : Option (List Nat)
  End : Nat
deriving DecidableEq

/-- The message `pb.AppendResponse`. -/
structure AppendResponse where
  Code : Code
  Offsets : Option (List Nat)
  End : Nat
deriving DecidableEq

/-- The message `pb.SealRequest`. -/
structure SealRequest where
  ExtentID : Nat
  CommitLength : Nat

/-- The message `pb.CopyExtentRequest`. -/
structure CopyExtentRequest where
  ExtentID : Nat

/-- The message `pb.CommitLengthRequest`. -/
structure CommitLengthRequest where
  ExtentID : Nat

/-- The message `pb.CommitLengthResponse`. -/
structure CommitLengthResponse where
  Code : Code
  Length : Nat
deriving DecidableEq

/-- The message `pb.SealResponse`. -/
structure SealResponse where
  Code : Code
deriving DecidableEq

/-- The message `pb.RequireRecoveryResponse`. -/
structure RequireRecoveryResponse where
  Code : Code
  CodeDes : String
deriving DecidableEq

/-- The message `pb.CopyResponseHeader` or a payload chunk, as passed to
`stream.Send`. -/
inductive CopyExtentResponse where
  | Header (code : Code) (codeDes : String) (payloadLen : Nat)
  | Payload (payload : List Nat)
deriving DecidableEq

end pb

/-! ## `manager/stream_manager/policy.go` -/

namespace stream_manager

/-- The fields of `NodeStatus` the policy reads; `lastEcho` is the instant
returned by `LastEcho()`. -/
structure NodeStatus where
  NodeID : Nat
  free : Nat
  lastEcho : Nat
deriving DecidableEq

/-- The comparison passed to `sort.Slice`: later `LastEcho` first, then more
free space first. -/
def less (a b : NodeStatus) : Bool :=
  if a.lastEcho > b.lastEcho then true
  else if a.lastEcho < b.lastEcho then false
  else a.free > b.free

/-- The call `sort.Slice(ns, less)`, as insertion sort: `a` stays before `b`
unless `b` is less than `a`. `sort.Slice` is not stable; on nodes that `less`
orders strictly every sorting algorithm returns this list. -/
def sortNodes (ns : List NodeStatus) : List NodeStatus :=
  ns.insertionSort (fun a b => less b a = false)

/-- The result of `AllocExtent`: the node list and a nil error, or a nil list
and an error. -/
inductive AllocResult where
  | nodes (ret : List NodeStatus)
  | error (msg : String)
deriving DecidableEq

/-- The function `SimplePolicy.AllocExtent`; `count` is a Go `int`. -/
def AllocExtent (ns : List NodeStatus) (count : Int) (keepNodes : List Nat) : AllocResult :=
  let ns := sortNodes ns
  if (ns.length : Int) < count then AllocResult.error "not enough nodes" else
  -- for i := 0; i < count; i++: keep ns[i] unless its id is in the set
  let ret := (ns.take count.toNat).filter (fun n => !(keepNodes.contains n.NodeID))
  if (ret.length : Int) < count then AllocResult.error "cannot find enough nodes"
  else AllocResult.nodes ret

/-- Modelled from the spec: `FindReplaceSlot` is not among the sources. It
returns the slot `ReplaceID` occupies in `Replicates ∪ Parity`, in the order
`chooseECAliveNode` lays the two lists out, or `-1` when it occupies none. -/
def FindReplaceSlot (extentInfo : pb.ExtentInfo) (replaceID : Nat) : Int :=
  if (extentInfo.Replicates ++ extentInfo.Parity).contains replaceID then
    ((extentInfo.Replicates ++ extentInfo.Parity).indexOf replaceID : Int)
  else -1

end stream_manager

/-! ## `node/node_service.go` and `node/node_recovery.go` -/

namespace node

open pb

/-- What a handler call does: it returns Go's `(response, error)` pair, either
of which may be nil, or it panics. -/
inductive Outcome (α : Type) where
  | returned (resp : Option α) (err : Option String)
  | panicked
deriving DecidableEq

/-- The state of an extent handle that the handlers observe. -/
structure Extent where
  ID : Nat
  commitLength : Nat
  isSeal : Bool
  data : List Nat
deriving DecidableEq

/-- Modelled from the spec: `(*Extent).Seal` is not among the sources. A
successful `Seal(L)` freezes the extent with `CommitLength == L`; an extent
whose commit length is below `L` is never sealed (the comment in `CopyExtent`
says so of `func (ex *Extent) Seal`). The second component is the error. -/
def Extent.Seal (ex : Extent) (commit : Nat) : Extent × Option String :=
  if ex.commitLength < commit then (ex, some "commit is larger than the commit length")
  else ({ ex with commitLength := commit, isSeal := true, data := ex.data.take commit }, none)

/-- The file and path returned by `AllocCopyExtent`. -/
structure CopyTarget where
  ExtentID : Nat
  ReplaceID : Nat
  path : String
deriving DecidableEq

/-- The arguments of one `go en.runRecoveryTask(...)`. -/
structure Worker where
  task : RecoveryTask
  extentInfo : ExtentInfo
  target : CopyTarget
deriving DecidableEq

/-- The state of a storage node: the extent registry, the atomic counter
`recoveryTaskNum`, the recovery goroutines that were created and have not begun
to run, those that run, the copy targets allocated on the disks, and the lines
logged about recovery tasks. -/
structure ExtentNode where
  nodeID : Nat
  extentMap : List (Nat × Extent)
  recoveryTaskNum : Int
  spawned : List Worker
  running : List Worker
  copyTargets : List CopyTarget
  logged : List String
deriving DecidableEq

/-- The method `getExtent`; `none` is the nil handle. -/
def ExtentNode.getExtent (en : ExtentNode) (extentID : Nat) : Option Extent :=
  en.extentMap.lookup extentID

/-- The method `setExtent`: the registry maps `extentID` to `ex` from now on. -/
def ExtentNode.setExtent (en : ExtentNode) (extentID : Nat) (ex : Extent) : ExtentNode :=
  { en with extentMap := (extentID, ex) :: en.extentMap }

/-- The result `(ret, end, err)` of `AppendWithWal` and the extent after it. -/
structure WalResult where
  ret : Option (List Nat)
  endOffset : Nat
  err : Option String
  extent : Extent

/-- The handler `ExtentNode.ReplicateBlocks`. `AppendWithWal` is a method of
the node that is not among the sources and enters as a parameter. -/
def ExtentNode.ReplicateBlocks (AppendWithWal : Extent → List (List Nat) → WalResult)
    (en : ExtentNode) (req : ReplicateBlocksRequest) :
    Outcome ReplicateBlocksResponse × ExtentNode :=
  match en.getExtent req.ExtentID with
  | none => (Outcome.returned none (some "no suck extent"), en)
  | some ex =>
    if ex.commitLength ≠ req.Commit then
      (Outcome.returned none (some "primary commitlength is different with replicates"), en)
    else
      let r := AppendWithWal ex req.Blocks
      match r.err with
      | some e => (Outcome.returned none (some e), en.setExtent req.ExtentID r.extent)
      | none =>
        (Outcome.returned
          (some { Code := Code.OK, Offsets := r.ret, End := r.endOffset }) none,
          en.setExtent req.ExtentID r.extent)

/-- The local type `Result` of `Append`; `Offsets = none` is the nil slice. -/
structure Result where
  Error : Option String
  Offsets : Option (List Nat)
  End : Nat
deriving DecidableEq

/-- Modelled from the spec: `utils.EqualUint32` is not among the sources; the
spec compares the offsets element-wise. A nil slice has no elements. -/
def EqualUint32 (a b : Option (List Nat)) : Bool :=
  a.getD [] == b.getD []

/-- Lines 158–180 of `ExtentNode.Append`: the loop over the results in
`retChan`, in the order they arrived, and the final response. `preEnd` is an
`int64` that starts at `-1`. -/
def Append_collect (preOffsets : Option (List Nat)) (preEnd : Int) :
    List Result → Outcome AppendResponse
  | [] =>
    Outcome.returned
      (some { Code := Code.OK, Offsets := preOffsets, End := (preEnd % 2 ^ 32).toNat }) none
  | result :: rest =>
    let preOffsets1 := if preOffsets = none then result.Offsets else preOffsets
    let preEnd1 := if preEnd = -1 then (result.End : Int) else preEnd
    if result.Error ≠ none ∨ EqualUint32 result.Offsets preOffsets1 = false then
      Outcome.returned none result.Error
    else if EqualUint32 result.Offsets preOffsets1 = false ∨ preEnd1 ≠ (result.End : Int) then
      Outcome.returned none (some "block is not appended at the same offset")
    else Append_collect preOffsets1 preEnd1 rest

/-- The handler `ExtentNode.Seal`. The guard is `ex != nil`; past it `ex` is
nil and `ex.Seal` dereferences it. -/
def ExtentNode.Seal (en : ExtentNode) (req : SealRequest) : Outcome SealResponse × ExtentNode :=
  match en.getExtent req.ExtentID with
  | some _ => (Outcome.returned none (some "have extent, can not alloc new"), en)
  | none => (Outcome.panicked, en)

/-- The handler `ExtentNode.CommitLength`. The guard is `ex != nil`; past it
`ex` is nil and `ex.CommitLength` dereferences it. -/
def ExtentNode.CommitLength (en : ExtentNode) (req : CommitLengthRequest) :
    Outcome CommitLengthResponse :=
  match en.getExtent req.ExtentID with
  | some _ => Outcome.returned none (some "have extent, can not alloc new")
  | none => Outcome.panicked

/-- Modelled from the spec: `wire_errors.ConvertToPBCode` is not among the
sources; an error that is none of the extent layer's own goes on the wire as
`ERROR` with its text. -/
def ConvertToPBCode (err : String) : Code × String := (Code.ERROR, err)

/-- The handler `ExtentNode.RequireRecovery`. `MaxConcurrentTask` is a constant
that is not among the sources; `extentInfo` is what `en.em.Update` returns and
`alloc` what `AllocCopyExtent` on the chosen disk returns, a created target or
an error. -/
def ExtentNode.RequireRecovery (MaxConcurrentTask : Int) (en : ExtentNode)
    (task : RecoveryTask) (extentInfo : ExtentInfo) (alloc : Except String CopyTarget) :
    Outcome RequireRecoveryResponse × ExtentNode :=
  let errDone := fun (err : String) =>
    (Outcome.returned
      (some { Code := (ConvertToPBCode err).1, CodeDes := (ConvertToPBCode err).2 :
        RequireRecoveryResponse }) none)
  let n := en.recoveryTaskNum
  if n < MaxConcurrentTask then
    let en1 :=
      if stream_manager.FindReplaceSlot extentInfo task.ReplaceID = -1 then
        { en with logged := "task is not valid to info" :: en.logged }
      else en
    if extentInfo.SealedLength = 0 then (errDone "extent should be sealed", en1)
    else
      match alloc with
      | Except.error e => (errDone e, en1)
      | Except.ok target =>
        (Outcome.returned (some { Code := Code.OK, CodeDes := "" }) none,
          { en1 with
            copyTargets := target :: en1.copyTargets
            spawned := { task := task, extentInfo := extentInfo, target := target } ::
              en1.spawned })
  else (errDone "exceed MaxConcurrentTask, please wait...", en)

/-- The first statement of `runRecoveryTask`, run when a created goroutine
begins: `atomic.AddInt32(&en.recoveryTaskNum, 1)`. -/
def ExtentNode.workerStart (en : ExtentNode) : ExtentNode :=
  match en.spawned with
  | [] => en
  | w :: rest =>
    { en with spawned := rest, running := w :: en.running,
              recoveryTaskNum := en.recoveryTaskNum + 1 }

/-- The deferred function of `runRecoveryTask`, run when a worker returns:
`atomic.AddInt32(&en.recoveryTaskNum, ^int32(0))`. -/
def ExtentNode.workerExit (en : ExtentNode) : ExtentNode :=
  match en.running with
  | [] => en
  | _ :: rest => { en with running := rest, recoveryTaskNum := en.recoveryTaskNum - 1 }

/-- The steps of a node that touch the recovery counter. -/
inductive Event where
  | requireRecovery (task : RecoveryTask) (extentInfo : ExtentInfo)
      (alloc : Except String CopyTarget)
  | workerStart
  | workerExit

/-- One step of the node. -/
def ExtentNode.step (MaxConcurrentTask : Int) (en : ExtentNode) : Event → ExtentNode
  | Event.requireRecovery task extentInfo alloc =>
    (en.RequireRecovery MaxConcurrentTask task extentInfo alloc).2
  | Event.workerStart => en.workerStart
  | Event.workerExit => en.workerExit

/-- The node after a sequence of steps. -/
def ExtentNode.run (MaxConcurrentTask : Int) (en : ExtentNode) (events : List Event) :
    ExtentNode :=
  events.foldl (ExtentNode.step MaxConcurrentTask) en

/-- The recovery workers created and not yet returned. -/
def ExtentNode.inFlight (en : ExtentNode) : Nat :=
  en.spawned.length + en.running.length

/-- A node that has just started. -/
def ExtentNode.fresh (nodeID : Nat) : ExtentNode :=
  { nodeID := nodeID, extentMap := [], recoveryTaskNum := 0, spawned := [], running := [],
    copyTargets := [], logged := [] }

/-- What a call of `CopyExtent` does: the messages sent in order, the node
after the call, and the recovery task `(ExtentID, nodeID)` submitted to the
manager, if any. -/
structure CopyResult where
  sent : List CopyExtentResponse
  en : ExtentNode
  submitted : Option (Nat × Nat)
deriving DecidableEq

/-- The handler `ExtentNode.CopyExtent` up to the end of the stream.
`extentInfo` is what `en.em.Update` returns, `reads` the buffers the extent's
reader yields; the loop ends at the first empty one. Reader and send failures
are left out. -/
def ExtentNode.CopyExtent (en : ExtentNode) (req : CopyExtentRequest)
    (extentInfo : Option ExtentInfo) (reads : List (List Nat)) : CopyResult :=
  let errDone := fun (err : String) (sub : Option (Nat × Nat)) =>
    ({ sent := [CopyExtentResponse.Header (ConvertToPBCode err).1 (ConvertToPBCode err).2 0],
       en := en, submitted := sub } : CopyResult)
  match en.getExtent req.ExtentID with
  | none => errDone "no such extentID" none
  | some extent =>
    match extentInfo with
    | none => errDone "no such extentInfo" none
    | some info =>
      -- the `OK` header and the payload, for the extent as it is by then
      let stream := fun (extent1 : Extent) (en1 : ExtentNode) =>
        ({ sent := CopyExtentResponse.Header Code.OK "" extent1.commitLength ::
              (reads.takeWhile (fun b => !b.isEmpty)).map CopyExtentResponse.Payload,
           en := en1, submitted := none } : CopyResult)
      if extent.isSeal = false then
        if extent.commitLength ≥ info.SealedLength % 2 ^ 32 then
          stream (extent.Seal (info.SealedLength % 2 ^ 32)).1
            (en.setExtent req.ExtentID (extent.Seal (info.SealedLength % 2 ^ 32)).1)
        else
          errDone "extent on node is not complete" (some (extent.ID, en.nodeID))
      else if extent.commitLength ≠ info.SealedLength % 2 ^ 32 then
        errDone "should never happen" none
      else stream extent en

/-- Whether the first message of a `CopyExtent` stream is a header with code
`OK`. -/
def CopyResult.headerOK (r : CopyResult) : Bool :=
  match r.sent with
  | CopyExtentResponse.Header Code.OK _ _ :: _ => true
  | _ => false

/-- The payload length announced by the first message of a `CopyExtent`
stream. -/
def CopyResult.payloadLen (r : CopyResult) : Option Nat :=
  match r.sent with
  | CopyExtentResponse.Header _ _ n :: _ => some n
  | _ => none

/-- Whether a `CopyExtent` stream carries a payload message. -/
def CopyResult.hasPayload (r : CopyResult) : Bool :=
  r.sent.any (fun msg =>
    match msg with
    | CopyExtentResponse.Payload _ => true
    | CopyExtentResponse.Header _ _ _ => false)

/-- A stand-in for `AppendWithWal` with which `ReplicateBlocks` can be run:
every block lands at the current end of the extent. -/
def appendAtEnd (ex : Extent) (blocks : List (List Nat)) : WalResult :=
  { ret := some ((blocks.foldl
        (fun (acc : List Nat × Nat) b => (acc.1 ++ [acc.2], acc.2 + b.length))
        ([], ex.commitLength)).1)
    endOffset := ex.commitLength + (blocks.map List.length).sum
    err := none
    extent := { ex with commitLength := ex.commitLength + (blocks.map List.length).sum
                        data := ex.data ++ blocks.flatten } }

/-- Sample data: an open extent 7 that holds three bytes. -/
def sampleExtent : Extent :=
  { ID := 7, commitLength := 3, isSeal := false, data := [1, 2, 3] }

/-- Sample data: node 1 with `sampleExtent` registered. -/
def sampleNode : ExtentNode :=
  { ExtentNode.fresh 1 with extentMap := [(7, sampleExtent)] }

/-- Sample data: a `ReplicateBlocks` request for extent 7 at commit length 3
that carries blocks of 2 and 1 bytes. -/
def sampleReplicate : ReplicateBlocksRequest :=
  { ExtentID := 7, Commit := 3, Blocks := [[4, 5], [6]] }

/-- Sample data: the manager's record of extent 7, replicated on nodes 1, 2
and 3 and sealed at 100 bytes. -/
def sampleInfo : ExtentInfo :=
  { ExtentID := 7, Replicates := [1, 2, 3], Parity := [], SealedLength := 100 }

/-- Sample data: an open extent 7 that holds seven bytes. -/
def sampleOpenExtent : Extent :=
  { ID := 7, commitLength := 7, isSeal := false, data := [1, 2, 3, 4, 5, 6, 7] }

/-- Sample data: node 1 with `sampleOpenExtent` registered. -/
def sampleOpenNode : ExtentNode :=
  { ExtentNode.fresh 1 with extentMap := [(7, sampleOpenExtent)] }

/-- Sample data: a record of extent 7 whose `SealedLength`, `2 ^ 32 + 5`, does
not fit in a `uint32`. -/
def sampleWideInfo : ExtentInfo :=
  { ExtentID := 7, Replicates := [1, 2, 3], Parity := [], SealedLength := 4294967301 }

/-- Sample data: a record of extent 7 sealed at 5 bytes. -/
def sampleShortInfo : ExtentInfo :=
  { ExtentID := 7, Replicates := [1, 2, 3], Parity := [], SealedLength := 5 }

/-- Sample data: a copy target for extent 7. -/
def sampleTarget : CopyTarget :=
  { ExtentID := 7, ReplaceID := 9, path := "7.9.copy" }

end node

/-! ## `node/node_recovery.go`: the erasure-coded recovery attempt -/

namespace node

open pb

/-- What `chooseECAliveNode` does: it returns `(conns, missingIndex)`, where
`conns = none` is the nil slice and a connection is named by its address, or
the assertion on the number of addresses fails. -/
inductive Chosen where
  | returned (conns : Option (List (Option String))) (missingIndex : Int)
  | panicked
deriving DecidableEq

/-- The loop of `chooseECAliveNode` from slot `i` on, over the slots
`(nodes[i], addrs[i])` that are left; `healthy addr` says that
`conn.GetPools().Get(addr)` returns no error. The state is the connections of
the slots passed, `activeConns` and `missingIndex`. -/
def chooseECLoop (healthy : String → Bool) (except : Nat) :
    List (Nat × String) → Nat → List (Option String) → Nat → Int →
      List (Option String) × Nat × Int
  | [], _, conns, activeConns, missingIndex => (conns, activeConns, missingIndex)
  | (nodeID, addr) :: rest, i, conns, activeConns, missingIndex =>
    if nodeID = except then
      chooseECLoop healthy except rest (i + 1) (conns ++ [none]) activeConns (i : Int)
    else if healthy addr then
      chooseECLoop healthy except rest (i + 1) (conns ++ [some addr]) (activeConns + 1)
        missingIndex
    else
      chooseECLoop healthy except rest (i + 1) (conns ++ [none]) activeConns missingIndex

/-- The method `chooseECAliveNode`; `addrs` is what `en.em.GetPeers` returns,
`none` being nil. -/
def ExtentNode.chooseECAliveNode (addrs : Option (List String)) (healthy : String → Bool)
    (extentInfo : ExtentInfo) (except : Nat) : Chosen :=
  match addrs with
  | none => Chosen.returned none (-1)
  | some addrs =>
    -- utils.AssertTrue(len(addrs) == len(Replicates) + len(Parity))
    if addrs.length ≠ extentInfo.Replicates.length + extentInfo.Parity.length then
      Chosen.panicked
    else
      let nodes := extentInfo.Replicates ++ extentInfo.Parity
      let r := chooseECLoop healthy except (nodes.zip addrs) 0 [] 0 (-1)
      if r.2.1 = extentInfo.Replicates.length then Chosen.returned (some r.1) r.2.2
      else Chosen.returned none r.2.2

/-- What a recovery attempt does: it returns an error, nil on success, or it
panics. -/
inductive Attempt where
  | returned (err : Option String)
  | panicked
deriving DecidableEq

/-- The method `recoveryErasureExtent`. Lines 106–169, the transfers and the
reconstruction, enter as `transfer`, a function of the connections and the
slot to rebuild. -/
def ExtentNode.recoveryErasureExtent (addrs : Option (List String))
    (healthy : String → Bool) (extentInfo : ExtentInfo) (task : RecoveryTask)
    (transfer : List (Option String) → Int → Attempt) : Attempt :=
  match ExtentNode.chooseECAliveNode addrs healthy extentInfo task.ReplaceID with
  | Chosen.panicked => Attempt.panicked
  | Chosen.returned none _ =>
    Attempt.returned (some "ErasureExtent: can not find remote nodes")
  | Chosen.returned (some conns) replacingIndex =>
    if replacingIndex = -1 then
      Attempt.returned (some "task.ReplaceID is not find int extentInfo")
    else transfer conns replacingIndex

/-- The number of healthy peers in the slots of `Replicates ++ Parity` other
than the slots of `except`. -/
def aliveOthers (addrs : List String) (healthy : String → Bool) (extentInfo : ExtentInfo)
    (except : Nat) : Nat :=
  (((extentInfo.Replicates ++ extentInfo.Parity).zip addrs).filter
    (fun slot => decide (slot.1 ≠ except) && healthy slot.2)).length

/-- Sample data: an extent with `k = 2` data shards on nodes 1 and 2 and
`m = 2` parity shards on nodes 3 and 4. -/
def sampleECInfo : ExtentInfo :=
  { ExtentID := 7, Replicates := [1, 2], Parity := [3, 4], SealedLength := 100 }

/-- Sample data: the addresses of the four peers of `sampleECInfo`. -/
def sampleAddrs : List String := ["n1", "n2", "n3", "n4"]

/-! ## `node/node_recovery.go`: the end of `runRecoveryTask` -/

/-- A file path as its list of elements. -/
abbrev Path := List String

/-- The file system: which extent file each path holds. -/
abbrev FileSystem := Path → Option Extent

/-- The call `os.Rename(oldpath, newpath)`: the entry moves to the new path;
`none` is the error for a missing `oldpath`. -/
def FileSystem.Rename (fs : FileSystem) (oldpath newpath : Path) : Option FileSystem :=
  match fs oldpath with
  | none => none
  | some file =>
    some (fun p => if p = newpath then some file else if p = oldpath then none else fs p)

/-- Modelled from the spec: `extent.OpenExtent` is not among the sources. The
extent is opened from the file at `path`; `none` is the error for a path that
holds no file. -/
def OpenExtent (fs : FileSystem) (path : Path) : Option Extent := fs path

/-- The value of `fmt.Sprintf("%s.ext", path.Dir(targetFilePath))`: the last
element is dropped and `.ext` is appended to the element before it. -/
def extentFileName (targetFilePath : Path) : Path :=
  match targetFilePath.dropLast.reverse with
  | [] => [".ext"]
  | dir :: parents => parents.reverse ++ [dir ++ ".ext"]

/-- Lines 261–268 of `runRecoveryTask`, run once an attempt succeeded. `none`
is `utils.Check` met with a non-nil error, which ends the worker before the
extent is registered. -/
def ExtentNode.runRecoveryTask_finish (en : ExtentNode) (fs : FileSystem)
    (targetFilePath : Path) : Option (ExtentNode × FileSystem) :=
  -- rename file from XX.XX.copy to XX.ext
  match fs.Rename targetFilePath (extentFileName targetFilePath) with
  | none => none
  | some fs1 =>
    -- add targetFilePath to extent
    match OpenExtent fs1 targetFilePath with
    | none => none
    | some ex => some (en.setExtent ex.ID ex, fs1)

/-- Sample data: the path of a finished copy target of extent 7. -/
def sampleTargetPath : Path := ["disk0", "7", "7.copy"]

/-- Sample data: a file system that holds the recovered extent 7 at
`sampleTargetPath` and nothing else. -/
def sampleFS : FileSystem := fun p =>
  if p = sampleTargetPath then
    some { ID := 7, commitLength := 3, isSeal := true, data := [1, 2, 3] }
  else none

end node

/-! ## `extent/storage`: the syncing file -/

namespace storage

/-- The type `SyncingFileOptions`. -/
structure SyncingFileOptions where
  BytesPerSync : Nat
  PreallocateSize : Nat

/-- The fields of `SyncingFile` that `TestSyncingFile` sets and reads: the
bytes written and the watermark `atomic.syncOffset`. -/
structure SyncingFile where
  bytesPerSync : Nat
  offset : Nat
  syncOffset : Nat
deriving DecidableEq

/-- Modelled from the spec: `NewSyncingFile` is not among the sources; a new
file has nothing written and nothing synced. -/
def NewSyncingFile (opts : SyncingFileOptions) : SyncingFile :=
  { bytesPerSync := opts.BytesPerSync, offset := 0, syncOffset := 0 }

/-- Modelled from the spec: `ratchetSyncOffset` is not among the sources; the
watermark is monotonically non-decreasing, so it moves to `offset` only
forwards. The test stubs `syncTo` with it. -/
def SyncingFile.ratchetSyncOffset (f : SyncingFile) (offset : Nat) : SyncingFile :=
  if f.syncOffset < offset then { f with syncOffset := offset } else f

/-- Modelled from the spec: `SyncingFile.Write` is not among the sources.
`Write` appends; after the write, once at least `BytesPerSync` bytes lie
between the watermark and the sync point, the range up to the sync point is
synced and the watermark advances to it. The sync point is not the end of the
file: `TestSyncingFile` and scenario S6 of the spec leave the watermark at 0
after a first write of 1 MiB and at 1 MiB after the second, so it trails the
end by `syncRangeBuffer` bytes, rounded down to `syncRangeAlignment`; both
constants enter as parameters. -/
def SyncingFile.Write (syncRangeBuffer syncRangeAlignment : Nat) (f : SyncingFile)
    (n : Nat) : SyncingFile :=
  let f1 := { f with offset := f.offset + n }
  if f1.bytesPerSync = 0 then f1
  else if f1.offset ≤ syncRangeBuffer then f1
  else
    let syncToOffset :=
      (f1.offset - syncRangeBuffer) - (f1.offset - syncRangeBuffer) % syncRangeAlignment
    if syncToOffset - f1.syncOffset < f1.bytesPerSync then f1
    else f1.ratchetSyncOffset syncToOffset

/-- The constant `mb` of `TestSyncingFile`. -/
def mb : Nat := 1 <<< 20

/-- The table `testCases` of `TestSyncingFile`: the bytes written by a case and
the watermark expected after it. -/
def testCases : List (Nat × Nat) :=
  [(mb, 0), (mb, mb), (4 <<< 10, mb), (4 <<< 10, mb + (8 <<< 10)),
    (8 <<< 10, mb + (16 <<< 10)), (16 <<< 10, mb + (32 <<< 10))]

/-- The loop of `TestSyncingFile` over the cases that are left: each case
writes `n` bytes and compares the watermark with `expectedSyncTo`. The result
says whether every comparison holds. -/
def testLoop (write : SyncingFile → Nat → SyncingFile) :
    SyncingFile → List (Nat × Nat) → Bool
  | _, [] => true
  | s, (n, expectedSyncTo) :: rest =>
    if (write s n).syncOffset = expectedSyncTo then testLoop write (write s n) rest
    else false

/-- The test `TestSyncingFile` against an implementation `write` of `Write`:
a syncing file with `BytesPerSync` of 8 KiB runs through `testCases`. -/
def TestSyncingFile (write : SyncingFile → Nat → SyncingFile) : Bool :=
  testLoop write (NewSyncingFile { BytesPerSync := 8 <<< 10, PreallocateSize := 0 }) testCases

/-- The rule of the spec's property 8 read as an implementation of `Write`:
after a write the watermark is `⌊N / B⌋ * B` for the `N` bytes written. -/
def SyncingFile.WriteFloor (f : SyncingFile) (n : Nat) : SyncingFile :=
  { f with offset := f.offset + n
           syncOffset := (f.offset + n) / f.bytesPerSync * f.bytesPerSync }

/-- The bytes written once every write of `writes` is done. -/
def written (writes : List Nat) : Nat := writes.sum

/-- The syncing file after the writes of `writes`, in order. -/
def SyncingFile.writeAll (syncRangeBuffer syncRangeAlignment : Nat) (f : SyncingFile)
    (writes : List Nat) : SyncingFile :=
  writes.foldl (SyncingFile.Write syncRangeBuffer syncRangeAlignment) f

/-- The sync point for `N` written bytes: `N - syncRangeBuffer`, rounded down
to `syncRangeAlignment`. -/
def syncPoint (syncRangeBuffer syncRangeAlignment N : Nat) : Nat :=
  (N - syncRangeBuffer) - (N - syncRangeBuffer) % syncRangeAlignment

end storage

/-! ## Byte-slice lemmas -/

theorem copyAt_length {dst src r : List Nat} {off : Nat}
    (h : copyAt dst off src = some r) : r.length = dst.length := by
  unfold copyAt at h
  split at h
  · injection h with h
    subst h
    simp only [List.length_append, List.length_take, List.length_drop]
    omega
  · exact absurd h (by simp)

theorem copyAt_getD {dst src r : List Nat} {off : Nat}
    (h : copyAt dst off src = some r) (o : Nat) :
    r.getD o 0 =
      if off ≤ o ∧ o < off + src.length ∧ o < dst.length then src.getD (o - off) 0
      else dst.getD o 0 := by
  unfold copyAt at h
  split at h
  · rename_i hoff
    injection h with h
    subst h
    simp only [List.getD_eq_getElem?_getD, List.getElem?_append, List.getElem?_take,
      List.getElem?_drop, List.length_take]
    have e1 : min off dst.length = off := by omega
    rw [e1]
    by_cases c1 : o < off
    · have : ¬ (off ≤ o ∧ o < off + src.length ∧ o < dst.length) := by omega
      simp [c1, this]
    · by_cases c2 : o < off + src.length ∧ o < dst.length
      · have h1 : o - off < min (dst.length - off) src.length := by omega
        have h2 : o - off < dst.length - off := by omega
        have h3 : off ≤ o ∧ o < off + src.length ∧ o < dst.length := by omega
        simp [c1, h1, h2, h3]
      · have h3 : ¬ (off ≤ o ∧ o < off + src.length ∧ o < dst.length) := by omega
        simp only [c1, h3, if_false]
        by_cases c3 : o < dst.length
        · have h4 : ¬ (o - off < min (dst.length - off) src.length) := by omega
          have h5 : off + src.length + (o - off - min (dst.length - off) src.length) = o := by omega
          simp [h4, h5]
        · have h6 : dst[o]? = none := List.getElem?_eq_none (by omega)
          rw [h6]
          split_ifs
          all_goals first
            | rfl
            | (exfalso; omega)
            | rw [List.getElem?_eq_none (by omega)]
  · exact absurd h (by simp)


/-! ## Arithmetic lemmas -/

theorem u32_of_lt {x : Nat} (h : x < 2 ^ 32) : u32 x = x := Nat.mod_eq_of_lt h

theorem sub32_of_le {a b : Nat} (hb : b ≤ a) (ha : a < 2 ^ 32) : sub32 a b = a - b := by
  unfold sub32
  have h1 : a % 2 ^ 32 = a := Nat.mod_eq_of_lt ha
  have h2 : b % 2 ^ 32 = b := Nat.mod_eq_of_lt (by omega)
  rw [h1, h2, if_pos hb]

theorem div_mul_add {c q x : Nat} (hx : x < c) : (q * c + x) / c = q := by
  have hc : 0 < c := by omega
  rw [Nat.add_comm, Nat.add_mul_div_right _ _ hc, Nat.div_eq_of_lt hx, Nat.zero_add]

theorem mod_mul_add {c q x : Nat} (hx : x < c) : (q * c + x) % c = x := by
  rw [Nat.add_comm, Nat.add_mul_mod_self_right, Nat.mod_eq_of_lt hx]

theorem ceil_mul_ge (a g : Nat) (hg : 0 < g) : a ≤ (a + g - 1) / g * g := by
  have h1 := Nat.div_add_mod (a + g - 1) g
  have h2 := Nat.mod_lt (a + g - 1) hg
  have h3 : g * ((a + g - 1) / g) = (a + g - 1) / g * g := Nat.mul_comm _ _
  omega

theorem ceil_mul_lt (a g : Nat) (hg : 0 < g) : (a + g - 1) / g * g < a + g := by
  have h1 := Nat.div_mul_le_self (a + g - 1) g
  omega

theorem Min_eq_min (a b : Nat) : utils.Min a b = min a b := by
  unfold utils.Min
  split_ifs <;> omega

theorem copyAt_isSome (dst : List Nat) (off : Nat) (src : List Nat) (h : off ≤ dst.length) :
    ∃ r, copyAt dst off src = some r := by
  unfold copyAt
  rw [if_pos h]
  exact ⟨_, rfl⟩

theorem frame_length (P : List Nat) : (frame P).length = P.length + 4 := by
  simp [frame]

theorem frame_getD_add (P : List Nat) (p : Nat) : (frame P).getD (p + 4) 0 = P.getD p 0 := by
  simp [frame, List.getD_eq_getElem?_getD]

theorem getD_drop_take (P : List Nat) (lo n x : Nat) (hx : x < n) :
    ((P.drop lo).take n).getD x 0 = P.getD (lo + x) 0 := by
  simp [List.getD_eq_getElem?_getD, List.getElem?_take, List.getElem?_drop, hx]

theorem getD_set (data : List (List Nat)) (j j1 : Nat) (r : List Nat) (hj : j < data.length) :
    (data.set j r).getD j1 [] = if j = j1 then r else data.getD j1 [] := by
  simp only [List.getD_eq_getElem?_getD, List.getElem?_set]
  split_ifs <;> simp

theorem cell_ne {k q i j j1 : Nat} (hj : j < k) (hj1 : j1 < k) (h : q ≠ i ∨ j1 ≠ j) :
    q * k + j1 ≠ i * k + j := by
  intro e
  have h1 : (q * k + j1) / k = q := div_mul_add hj1
  have h2 : (i * k + j) / k = i := div_mul_add hj
  have h3 : (q * k + j1) % k = j1 := mod_mul_add hj1
  have h4 : (i * k + j) % k = j := mod_mul_add hj
  rw [e] at h1 h3
  omega

theorem cellByte_succ_of_ne {F : List Nat} {k c t j o : Nat} (h : o / c * k + j ≠ t) :
    cellByte F k c (t + 1) j o = cellByte F k c t j o := by
  unfold cellByte
  have e : (o / c * k + j < t + 1) ↔ (o / c * k + j < t) := by omega
  simp only [e]

theorem cellByte_succ_of_eq {F : List Nat} {k c t j o : Nat} (h : o / c * k + j = t) :
    cellByte F k c (t + 1) j o =
      if t * c + o % c < F.length then F.getD (t * c + o % c) 0 else 0 := by
  unfold cellByte
  rw [h]
  simp

theorem cellByte_of_le {F : List Nat} {k c t j o : Nat} (h : t ≤ o / c * k + j) :
    cellByte F k c t j o = 0 := by
  unfold cellByte
  rw [if_neg]
  omega

theorem encodeCell_placed {P : List Nat} {k c n objectSize t : Nat} {data : List (List Nat)}
    (hk : 0 < k) (hkn : k ≤ n) (hc : 4 ≤ c) (hR : P.length + 4 < 2 ^ 32)
    (ht1 : 1 ≤ t) (htc : t * c < P.length + 4) (hrow : (t / k + 1) * c ≤ objectSize)
    (h : Placed (frame P) k c n objectSize t data) :
    ∃ data1, ReedSolomon.encodeCell P k c (P.length + 4) data t = some data1 ∧
      Placed (frame P) k c n objectSize (t + 1) data1 := by
  obtain ⟨hlen, hsize, hbyte⟩ := h
  have hj : t % k < k := Nat.mod_lt _ hk
  have ht : t / k * k + t % k = t := Nat.div_add_mod' t k
  have hic : t / k * c ≤ t * c := Nat.mul_le_mul_right c (Nat.div_le_self t k)
  have h4 : 4 ≤ t * c := by
    have := Nat.mul_le_mul ht1 hc
    omega
  have hrow1 : t / k * c + c ≤ objectSize := by
    have : (t / k + 1) * c = t / k * c + c := by ring
    omega
  have e1 : u32 (t * c) = t * c := u32_of_lt (by omega)
  have e2 : sub32 (P.length + 4) (t * c) = P.length + 4 - t * c := sub32_of_le (by omega) hR
  have e3 : sub32 (t * c) metaSize = t * c - 4 := sub32_of_le h4 (by omega)
  have e4 : u32 (t / k * c) = t / k * c := u32_of_lt (by omega)
  obtain ⟨av, hav⟩ : ∃ av, av = min c (P.length + 4 - t * c) := ⟨_, rfl⟩
  have e5 : u32 av = av := u32_of_lt (by omega)
  have e6 : u32 (t * c - 4 + av) = t * c - 4 + av := u32_of_lt (by omega)
  have hs : slice P (t * c - 4) (t * c - 4 + av) = some ((P.drop (t * c - 4)).take av) := by
    unfold slice
    rw [if_pos (by omega)]
    have : t * c - 4 + av - (t * c - 4) = av := by omega
    rw [this]
  have hjl : t % k < data.length := by omega
  have hrowj : data[t % k]? = some data[t % k] := List.getElem?_eq_getElem hjl
  have hrl : (data[t % k]).length = objectSize := hsize _ (List.getElem_mem hjl)
  have hgd : data.getD (t % k) [] = data[t % k] := by
    rw [List.getD_eq_getElem?_getD, hrowj]
    rfl
  obtain ⟨r, hr⟩ := copyAt_isSome data[t % k] (t / k * c)
    ((P.drop (t * c - 4)).take av) (by omega)
  refine ⟨data.set (t % k) r, ?_, ?_, ?_, ?_⟩
  · simp only [ReedSolomon.encodeCell, Min_eq_min, e1, e2, e3, ← hav, e5, e6, hs, hrowj, e4, hr]
  · rw [List.length_set]
    exact hlen
  · intro s hs1
    rcases List.mem_or_eq_of_mem_set hs1 with h1 | h1
    · exact hsize s h1
    · rw [h1, copyAt_length hr]
      exact hrl
  · intro j o hjk ho
    rw [getD_set _ _ _ _ hjl]
    by_cases hjj : t % k = j
    · rw [if_pos hjj, copyAt_getD hr o]
      have hsl : ((P.drop (t * c - 4)).take av).length = av := by
        rw [List.length_take, List.length_drop]
        omega
      rw [hsl, hrl]
      subst hjj
      by_cases hin : t / k * c ≤ o ∧ o < t / k * c + av ∧ o < objectSize
      · rw [if_pos hin]
        have hx : o - t / k * c < c := by omega
        have ho1 : o = t / k * c + (o - t / k * c) := by omega
        have hq : o / c = t / k := by
          rw [ho1]
          exact div_mul_add hx
        have hm : o % c = o - t / k * c := by
          conv_lhs => rw [ho1]
          exact mod_mul_add hx
        have hcell : o / c * k + t % k = t := by rw [hq]; exact ht
        rw [cellByte_succ_of_eq hcell, hm, frame_length, if_pos (by omega),
          getD_drop_take _ _ _ _ (by omega)]
        have e7 : t * c + (o - t / k * c) = (t * c - 4 + (o - t / k * c)) + 4 := by omega
        rw [e7, frame_getD_add]
      · rw [if_neg hin, ← hgd, hbyte _ o hj ho]
        by_cases hq : o / c = t / k
        · have hcell : o / c * k + t % k = t := by rw [hq]; exact ht
          have hdm := Nat.div_add_mod o c
          have hmul : c * (o / c) = t / k * c := by rw [hq, Nat.mul_comm]
          have hml : o % c < c := Nat.mod_lt o (by omega)
          rw [cellByte_succ_of_eq hcell, frame_length, if_neg (by omega),
            cellByte_of_le (by omega)]
        · rw [cellByte_succ_of_ne]
          exact fun e => cell_ne hj hj (Or.inl hq) (e.trans ht.symm)
    · rw [if_neg hjj, hbyte _ o hjk ho, cellByte_succ_of_ne]
      exact fun e => cell_ne hj hjk (Or.inr (fun e1 => hjj e1.symm)) (e.trans ht.symm)

theorem rows_bound {a k c t : Nat} (hk : 0 < k) (hc : 0 < c) (h : t * c < a) :
    (t / k + 1) * c ≤ (a + k * c - 1) / (k * c) * c := by
  have hg : 0 < k * c := Nat.mul_pos hk hc
  have h1 : a ≤ (a + k * c - 1) / (k * c) * (k * c) := ceil_mul_ge a (k * c) hg
  apply Nat.mul_le_mul_right
  by_contra hcon
  have h2 : (a + k * c - 1) / (k * c) ≤ t / k := by omega
  have h3 : (a + k * c - 1) / (k * c) * k ≤ t :=
    le_trans (Nat.mul_le_mul_right k h2) (Nat.div_mul_le_self t k)
  have h4 : (a + k * c - 1) / (k * c) * k * c ≤ t * c := Nat.mul_le_mul_right c h3
  have h5 : (a + k * c - 1) / (k * c) * k * c = (a + k * c - 1) / (k * c) * (k * c) :=
    Nat.mul_assoc _ _ _
  omega

theorem encodeLoop_placed {P : List Nat} {k c n objectSize : Nat}
    (hk : 0 < k) (hkn : k ≤ n) (hc : 4 ≤ c) (hR : P.length + 4 < 2 ^ 32) (cnt : Nat) :
    ∀ data : List (List Nat),
    (∀ t, 1 ≤ t → t < 1 + cnt → t * c < P.length + 4 ∧ (t / k + 1) * c ≤ objectSize) →
    Placed (frame P) k c n objectSize 1 data →
    ∃ data1, (List.range' 1 cnt).foldlM
        (ReedSolomon.encodeCell P k c (P.length + 4)) data = some data1 ∧
      Placed (frame P) k c n objectSize (1 + cnt) data1 := by
  induction cnt with
  | zero =>
    intro data _ h
    exact ⟨data, rfl, h⟩
  | succ cnt ih =>
    intro data hb h
    obtain ⟨d1, hd1, hp1⟩ := ih data (fun t h1 h2 => hb t h1 (by omega)) h
    obtain ⟨hb1, hb2⟩ := hb (1 + cnt) (by omega) (by omega)
    obtain ⟨d2, hd2, hp2⟩ := encodeCell_placed hk hkn hc hR (by omega) hb1 hb2 hp1
    refine ⟨d2, ?_, hp2⟩
    rw [List.range'_concat, List.foldlM_append, hd1]
    simp only [Nat.one_mul]
    simpa using hd2

theorem PutUint32_zeros_getD {objectSize R : Nat} {row1 : List Nat}
    (h : PutUint32 (List.replicate objectSize 0) R = some row1) (P : List Nat)
    (hP : P.length = R) (o : Nat) :
    row1.length = objectSize ∧
      row1.getD o 0 = if o < 4 then (frame P).getD o 0 else 0 := by
  unfold PutUint32 at h
  split at h
  · rename_i h4
    injection h with h
    subst h
    subst hP
    rw [List.length_replicate] at h4
    constructor
    · simp only [List.length_append, List.length_cons, List.length_nil, List.length_drop,
        List.length_replicate]
      omega
    · by_cases ho : o < 4
      · rw [if_pos ho, frame, List.getD_append _ _ _ _ (by simpa using ho),
          List.getD_append _ _ _ _ (by simpa using ho)]
      · rw [if_neg ho, List.getD_append_right _ _ _ _ (by simpa using ho)]
        simp only [List.getD_eq_getElem?_getD, List.getElem?_drop, List.getElem?_replicate]
        split_ifs <;> rfl
  · exact absurd h (by simp)

theorem firstCell_placed {P : List Nat} {k c n objectSize : Nat} {row1 src row2 : List Nat}
    (hk : 0 < k) (hkn : k ≤ n) (hc : 4 ≤ c)
    (h1 : PutUint32 (List.replicate objectSize 0) P.length = some row1)
    (h2 : slice P 0 (min P.length (c - 4)) = some src)
    (h3 : copyAt row1 4 src = some row2) :
    Placed (frame P) k c n objectSize 1
      ((List.replicate n (List.replicate objectSize 0)).set 0 row2) := by
  have hsrc : src = P.take (min P.length (c - 4)) := by
    unfold slice at h2
    rw [if_pos (by omega)] at h2
    injection h2 with h2
    rw [← h2]
    simp
  have hsl : src.length = min P.length (c - 4) := by
    rw [hsrc, List.length_take]
    omega
  have hr1 := fun o => PutUint32_zeros_getD h1 P rfl o
  have hl1 : row1.length = objectSize := (hr1 0).1
  refine ⟨?_, ?_, ?_⟩
  · simp
  · intro s hs
    rcases List.mem_or_eq_of_mem_set hs with h | h
    · rw [(List.mem_replicate.1 h).2, List.length_replicate]
    · rw [h, copyAt_length h3, hl1]
  · intro j o hj ho
    rw [getD_set _ _ _ _ (by rw [List.length_replicate]; omega)]
    by_cases hj0 : 0 = j
    · subst hj0
      rw [if_pos rfl, copyAt_getD h3 o, hsl, hl1, (hr1 o).2]
      by_cases hoc : o < c
      · have hq : o / c = 0 := Nat.div_eq_of_lt hoc
        have hm : o % c = o := Nat.mod_eq_of_lt hoc
        have hcell : o / c * k + 0 = 0 := by rw [hq]; simp
        rw [cellByte_succ_of_eq hcell, hm, frame_length]
        simp only [Nat.zero_mul, Nat.zero_add]
        by_cases hin : 4 ≤ o ∧ o < 4 + min P.length (c - 4) ∧ o < objectSize
        · rw [if_pos hin, if_pos (by omega), hsrc]
          have e : o = (o - 4) + 4 := by omega
          conv_rhs => rw [e, frame_getD_add]
          simp only [List.getD_eq_getElem?_getD, List.getElem?_take]
          rw [if_pos (by omega)]
        · rw [if_neg hin]
          by_cases ho4 : o < 4
          · rw [if_pos ho4, if_pos (by omega)]
          · rw [if_neg ho4, if_neg (by omega)]
      · have hq : 0 < o / c := Nat.div_pos (by omega) (by omega)
        have hqk : 0 < o / c * k := Nat.mul_pos hq hk
        rw [cellByte_of_le (by omega), if_neg (by omega), if_neg (by omega)]
    · rw [if_neg hj0, cellByte_of_le (by omega)]
      have hjn : j < n := by omega
      simp [List.getD_eq_getElem?_getD, List.getElem?_replicate, hjn, ho]

theorem ceil_pos {a g : Nat} (hg : 0 < g) (ha : 0 < a) : 1 ≤ (a + g - 1) / g := by
  have h := ceil_mul_ge a g hg
  by_contra h0
  have h1 : (a + g - 1) / g = 0 := Nat.lt_one_iff.1 (not_le.1 h0)
  rw [h1, Nat.zero_mul] at h
  omega

theorem fillCells_placed (P : List Nat) (k m c : Nat) (hk : 0 < k) (hc : 4 ≤ c)
    (hR : P.length + 4 + k * c < 2 ^ 32) (hkm : k + m < 2 ^ 32) :
    ∃ data, ReedSolomon.fillCells P k m c = some data ∧
      Placed (frame P) k c (k + m) ((P.length + 4 + k * c - 1) / (k * c) * c)
        ((P.length + 4 + c - 1) / c) data := by
  have hcg : c ≤ k * c := Nat.le_mul_of_pos_left c hk
  have hg : 0 < k * c := by omega
  obtain ⟨rows, hrows⟩ : ∃ rows, rows = (P.length + 4 + k * c - 1) / (k * c) := ⟨_, rfl⟩
  have hrg : rows * (k * c) < P.length + 4 + k * c := by
    rw [hrows]
    exact ceil_mul_lt _ _ hg
  have hrpos : 1 ≤ rows := by
    rw [hrows]
    exact ceil_pos hg (by omega)
  have hobj : rows * (k * c) / k = rows * c := by
    rw [show rows * (k * c) = k * (rows * c) by ring]
    exact Nat.mul_div_cancel_left _ hk
  have hobjc : c ≤ rows * c := Nat.le_mul_of_pos_left c hrpos
  obtain ⟨cn, hcn⟩ : ∃ cn, cn = (P.length + 4 + c - 1) / c := ⟨_, rfl⟩
  have hcn1 : cn * c < P.length + 4 + c := by
    rw [hcn]
    exact ceil_mul_lt _ _ (by omega)
  have hcnpos : 1 ≤ cn := by
    rw [hcn]
    exact ceil_pos (by omega) (by omega)
  have e1 : u32 P.length = P.length := u32_of_lt (by omega)
  have e2 : u32 (P.length + 4) = P.length + 4 := u32_of_lt (by omega)
  have e3 : u32 (k * c) = k * c := u32_of_lt (by omega)
  have e4 : u32 (P.length + 4 + k * c - 1) = P.length + 4 + k * c - 1 := u32_of_lt (by omega)
  have e5 : u32 (rows * (k * c)) = rows * (k * c) := u32_of_lt (by omega)
  have e6 : u32 (k + m) = k + m := u32_of_lt hkm
  have e7 : utils.Ceil (P.length + 4) c / c = cn := by
    unfold utils.Ceil
    rw [u32_of_lt (show P.length + 4 + c - 1 < 2 ^ 32 by omega), ← hcn,
      u32_of_lt (show cn * c < 2 ^ 32 by omega)]
    exact Nat.mul_div_cancel _ (by omega)
  have hgne : ¬ (k * c = 0) := by omega
  have hkne : ¬ (k = 0) := by omega
  have hcm : ¬ (c < 4) := by omega
  have hd0 : (List.replicate (k + m) (List.replicate (rows * c) 0))[0]? =
      some (List.replicate (rows * c) 0) := by
    rw [List.getElem?_replicate, if_pos (by omega)]
  obtain ⟨row1, hrow1⟩ : ∃ row1, PutUint32 (List.replicate (rows * c) 0) P.length = some row1 := by
    unfold PutUint32
    rw [if_pos (by rw [List.length_replicate]; omega)]
    exact ⟨_, rfl⟩
  obtain ⟨src, hsrc⟩ : ∃ src, slice P 0 (min P.length (c - 4)) = some src := by
    unfold slice
    rw [if_pos (by omega)]
    exact ⟨_, rfl⟩
  have hl1 : row1.length = rows * c := (PutUint32_zeros_getD hrow1 P rfl 0).1
  obtain ⟨row2, hrow2⟩ := copyAt_isSome row1 4 src (by omega)
  have hfirst := firstCell_placed (n := k + m) hk (by omega) hc hrow1 hsrc hrow2
  obtain ⟨data, hdata, hplaced⟩ := encodeLoop_placed hk (Nat.le_add_right k m) hc
    (by omega) (cn - 1) _ (fun t ht1 ht2 => by
      have h1 : t * c ≤ (cn - 1) * c := Nat.mul_le_mul_right c (by omega)
      have h2 : (cn - 1) * c = cn * c - c := Nat.sub_one_mul cn c
      have h3 : t * c < P.length + 4 := by omega
      exact ⟨h3, rows_bound hk (by omega) h3⟩) (hrows ▸ hfirst)
  refine ⟨data, ?_, ?_⟩
  · have hm4 : metaSize = 4 := rfl
    simp only [ReedSolomon.fillCells, e1, e2, e3, e4, ← hrows, e5, hobj, e6, hgne, hkne, hcm,
      hd0, hrow1, Min_eq_min, hm4, hsrc, hrow2, e7, if_false]
    rw [hrows]
    exact hdata
  · rw [hrows, hcn] at *
    have : 1 + ((P.length + 4 + c - 1) / c - 1) = (P.length + 4 + c - 1) / c := by omega
    rw [← this]
    exact hplaced

theorem cellByte_full {F : List Nat} {k c cn j o : Nat} (h : F.length ≤ cn * c) :
    cellByte F k c cn j o = layoutByte F k c j o := by
  unfold cellByte layoutByte
  by_cases hi : (o / c * k + j) * c + o % c < F.length
  · have hlt : o / c * k + j < cn := by
      by_contra hcon
      have h1 : cn * c ≤ (o / c * k + j) * c := Nat.mul_le_mul_right c (by omega)
      omega
    rw [if_pos ⟨hlt, hi⟩, if_pos hi]
  · rw [if_neg (fun h1 => hi h1.2), if_neg hi]

theorem Placed.layout {F : List Nat} {k c n objectSize cn : Nat} {data : List (List Nat)}
    (h : Placed F k c n objectSize cn data) (hkn : k ≤ n) (hcn : F.length ≤ cn * c) :
    Layout F k c objectSize data := by
  obtain ⟨hlen, hsize, hbyte⟩ := h
  intro j hj
  have hjl : j < data.length := by omega
  have hgd : data.getD j [] = data[j] := by
    rw [List.getD_eq_getElem?_getD, List.getElem?_eq_getElem hjl]
    rfl
  refine ⟨data[j], List.getElem?_eq_getElem hjl, hsize _ (List.getElem_mem hjl), ?_⟩
  intro o ho
  rw [← hgd, hbyte j o hj ho, cellByte_full hcn]

theorem layoutByte_at {F : List Nat} {k c t x : Nat} (hx : x < c)
    (hlt : t * c + x < F.length) :
    layoutByte F k c (t % k) (t / k * c + x) = F.getD (t * c + x) 0 := by
  have hq : (t / k * c + x) / c = t / k := div_mul_add hx
  have hm : (t / k * c + x) % c = x := mod_mul_add hx
  unfold layoutByte
  rw [hq, hm, Nat.div_add_mod' t k, if_pos hlt]

theorem decodeCell_joined {F : List Nat} {k c objectSize t : Nat} {shards : List (List Nat)}
    {fullData : List Nat} (hk : 0 < k) (hc : 0 < c) (hF : F.length < 2 ^ 32)
    (hL : Layout F k c objectSize shards) (htc : t * c < F.length)
    (hrow : (t / k + 1) * c ≤ objectSize) (hlen : fullData.length = F.length)
    (hinv : ∀ p, p < t * c → p < F.length → fullData.getD p 0 = F.getD p 0) :
    ∃ fd, ReedSolomon.decodeCell shards k c fullData t = some fd ∧ fd.length = F.length ∧
      ∀ p, p < (t + 1) * c → p < F.length → fd.getD p 0 = F.getD p 0 := by
  have hj : t % k < k := Nat.mod_lt _ hk
  obtain ⟨row, hrowj, hrl, hbytes⟩ := hL (t % k) hj
  have hic : t / k * c ≤ t * c := Nat.mul_le_mul_right c (Nat.div_le_self t k)
  have hrow1 : t / k * c + c ≤ objectSize := by
    have : (t / k + 1) * c = t / k * c + c := by ring
    omega
  have ht1 : (t + 1) * c = t * c + c := by ring
  have e1 : u32 (t * c) = t * c := u32_of_lt (by omega)
  have e2 : u32 (t / k * c) = t / k * c := u32_of_lt (by omega)
  have hs1 : sliceFrom row (t / k * c) = some (row.drop (t / k * c)) := by
    unfold sliceFrom
    rw [if_pos (by omega)]
  have hs2 : sliceFrom fullData (t * c) = some (fullData.drop (t * c)) := by
    unfold sliceFrom
    rw [if_pos (by omega)]
  obtain ⟨fd, hfd⟩ := copyAt_isSome fullData (t * c)
    (row.drop (t / k * c)) (by omega)
  have hkne : ¬ (k = 0) := by omega
  have hn : 0 < min (fullData.drop (t * c)).length (row.drop (t / k * c)).length := by
    rw [List.length_drop, List.length_drop]
    omega
  refine ⟨fd, ?_, ?_, ?_⟩
  · simp only [ReedSolomon.decodeCell, hkne, if_false, hrowj, e1, e2, hs1, hs2, hfd, hn,
      if_true]
  · rw [copyAt_length hfd, hlen]
  · intro p hp hpF
    rw [copyAt_getD hfd p, List.length_drop, hrl, hlen]
    by_cases hin : t * c ≤ p
    · rw [if_pos (by omega)]
      have hx : p - t * c < c := by omega
      have e3 : (row.drop (t / k * c)).getD (p - t * c) 0 =
          row.getD (t / k * c + (p - t * c)) 0 := by
        simp only [List.getD_eq_getElem?_getD, List.getElem?_drop]
      rw [e3, hbytes _ (by omega), layoutByte_at hx (by omega)]
      congr 1
      omega
    · rw [if_neg (by omega)]
      exact hinv p (by omega) hpF

theorem decodeLoop_joined {F : List Nat} {k c objectSize : Nat} {shards : List (List Nat)}
    (hk : 0 < k) (hc : 0 < c) (hF : F.length < 2 ^ 32)
    (hL : Layout F k c objectSize shards) (cnt : Nat) :
    ∀ fullData : List Nat,
    (∀ t, t < cnt → t * c < F.length ∧ (t / k + 1) * c ≤ objectSize) →
    fullData.length = F.length →
    ∃ fd, (List.range cnt).foldlM (ReedSolomon.decodeCell shards k c) fullData = some fd ∧
      fd.length = F.length ∧
      ∀ p, p < cnt * c → p < F.length → fd.getD p 0 = F.getD p 0 := by
  induction cnt with
  | zero =>
    intro fullData _ hlen
    refine ⟨fullData, rfl, hlen, ?_⟩
    intro p hp
    simp at hp
  | succ cnt ih =>
    intro fullData hb hlen
    obtain ⟨fd1, hfd1, hl1, hinv1⟩ := ih fullData (fun t ht => hb t (by omega)) hlen
    obtain ⟨hb1, hb2⟩ := hb cnt (by omega)
    obtain ⟨fd2, hfd2, hl2, hinv2⟩ := decodeCell_joined hk hc hF hL hb1 hb2 hl1 hinv1
    refine ⟨fd2, ?_, hl2, hinv2⟩
    rw [List.range_succ, List.foldlM_append, hfd1]
    simpa using hfd2

theorem header_roundtrip (R : Nat) (h : R < 2 ^ 32) :
    R / 2 ^ 24 % 256 % 256 * 2 ^ 24 + R / 2 ^ 16 % 256 % 256 * 2 ^ 16 +
      R / 2 ^ 8 % 256 % 256 * 2 ^ 8 + R % 256 % 256 = R := by
  norm_num at h ⊢
  omega

theorem take_four (l : List Nat) (h : 4 ≤ l.length) :
    l.take 4 = [l.getD 0 0, l.getD 1 0, l.getD 2 0, l.getD 3 0] := by
  match l, h with
  | a :: b :: c :: d :: rest, _ => rfl

theorem getD_eq_of_forall {l1 l2 : List Nat} (hlen : l1.length = l2.length)
    (h : ∀ p, p < l2.length → l1.getD p 0 = l2.getD p 0) : l1 = l2 := by
  apply List.ext_getElem? 
  intro n
  by_cases hn : n < l2.length
  · have h1 := h n hn
    rw [List.getD_eq_getElem?_getD, List.getD_eq_getElem?_getD,
      List.getElem?_eq_getElem hn, List.getElem?_eq_getElem (hlen ▸ hn)] at h1
    rw [List.getElem?_eq_getElem hn, List.getElem?_eq_getElem (hlen ▸ hn)]
    exact congrArg some h1
  · rw [List.getElem?_eq_none (by omega), List.getElem?_eq_none (by omega)]

theorem joinData_frame {P : List Nat} {k c : Nat} {shards : List (List Nat)}
    (hk : 0 < k) (hc : 4 ≤ c) (hR : P.length + 4 + k * c < 2 ^ 32)
    (hL : Layout (frame P) k c ((P.length + 4 + k * c - 1) / (k * c) * c) shards) :
    ReedSolomon.joinData shards k c = some P := by
  have hcg : c ≤ k * c := Nat.le_mul_of_pos_left c hk
  have hg : 0 < k * c := by omega
  have hFl : (frame P).length = P.length + 4 := frame_length P
  have hrpos : 1 ≤ (P.length + 4 + k * c - 1) / (k * c) := ceil_pos hg (by omega)
  have hobjc : c ≤ (P.length + 4 + k * c - 1) / (k * c) * c := Nat.le_mul_of_pos_left c hrpos
  obtain ⟨cn, hcn⟩ : ∃ cn, cn = (P.length + 4 + c - 1) / c := ⟨_, rfl⟩
  have hcn1 : cn * c < P.length + 4 + c := by
    rw [hcn]
    exact ceil_mul_lt _ _ (by omega)
  have hcn2 : P.length + 4 ≤ cn * c := by
    rw [hcn]
    exact ceil_mul_ge _ _ (by omega)
  obtain ⟨row0, hrow0, hl0, hb0⟩ := hL 0 hk
  have hhdr : ∀ o, o < 4 → row0.getD o 0 = (frame P).getD o 0 := by
    intro o ho
    have hq : o / c = 0 := Nat.div_eq_of_lt (by omega)
    have hm : o % c = o := Nat.mod_eq_of_lt (by omega)
    rw [hb0 o (by omega)]
    unfold layoutByte
    rw [hq, hm]
    simp only [Nat.zero_mul, Nat.zero_add]
    rw [if_pos (by omega)]
  have hs : slice row0 0 metaSize = some (row0.take 4) := by
    unfold slice metaSize
    rw [if_pos (by omega)]
    simp
  have hu : Uint32 (row0.take 4) = some P.length := by
    rw [take_four row0 (by omega), hhdr 0 (by omega), hhdr 1 (by omega), hhdr 2 (by omega),
      hhdr 3 (by omega)]
    simp only [frame, Uint32, List.cons_append, List.getD_cons_zero, List.getD_cons_succ]
    rw [header_roundtrip _ (by omega)]
  have e1 : u32 (P.length + metaSize) = P.length + 4 := u32_of_lt (by unfold metaSize; omega)
  have e2 : u32 (P.length + 4) = P.length + 4 := u32_of_lt (by omega)
  have e3 : utils.Ceil (P.length + 4) c / c = cn := by
    unfold utils.Ceil
    rw [u32_of_lt (show P.length + 4 + c - 1 < 2 ^ 32 by omega), ← hcn,
      u32_of_lt (show cn * c < 2 ^ 32 by omega)]
    exact Nat.mul_div_cancel _ (by omega)
  have hcne : ¬ (c = 0) := by omega
  obtain ⟨fd, hfd, hfl, hfb⟩ := decodeLoop_joined hk (by omega) (by omega) hL cn
    (List.replicate (P.length + 4) 0) (fun t ht => by
      have h1 : t * c ≤ (cn - 1) * c := Nat.mul_le_mul_right c (by omega)
      have h2 : (cn - 1) * c = cn * c - c := Nat.sub_one_mul cn c
      have h3 : t * c < P.length + 4 := by omega
      exact ⟨by omega, rows_bound hk (by omega) h3⟩) (by simp [hFl])
  have hfd1 : fd = frame P := getD_eq_of_forall hfl (fun p hp => hfb p (by omega) hp)
  have hsf : sliceFrom fd metaSize = some P := by
    rw [hfd1]
    unfold sliceFrom metaSize
    rw [if_pos (by omega)]
    simp [frame]
  simp only [ReedSolomon.joinData, hrow0, hs, hu, e1, List.length_replicate, e2, e3, hcne,
    if_false, hfd, hsf]

/-! ## The stand-in library keeps the contract -/

theorem mirrorNew_eq {k m : Nat} {enc : reedsolomon.Encoder}
    (h : reedsolomon.mirrorNew k m = some enc) :
    enc = reedsolomon.mirrorEncoder k m ∧ 0 < k ∧ k + m ≤ 256 := by
  unfold reedsolomon.mirrorNew at h
  split at h
  · rename_i hb
    injection h with h
    exact ⟨h.symm, hb⟩
  · exact absurd h (by simp)

theorem mirrorEncode_eq {k m : Nat} {shards out : List (List Nat)}
    (h : (reedsolomon.mirrorEncoder k m).Encode shards = some out) :
    shards.length = k + m ∧ 0 < (shards.headD []).length ∧
      (∀ s ∈ shards, s.length = (shards.headD []).length) ∧
      out = shards.take k ++ List.replicate m (shards.headD []) := by
  simp only [reedsolomon.mirrorEncoder] at h
  split at h
  · rename_i hb
    injection h with h
    refine ⟨hb.1, hb.2.1, ?_, h.symm⟩
    intro s hs
    have := List.all_eq_true.1 hb.2.2 s hs
    simpa using this
  · exact absurd h (by simp)

theorem headD_mem {shards : List (List Nat)} (h : 0 < shards.length) :
    shards.headD [] ∈ shards := by
  cases shards with
  | nil => simp at h
  | cons a t => simp

theorem mirrorNew_lawful : reedsolomon.Lawful reedsolomon.mirrorNew where
  new_bounds := fun k m enc h => (mirrorNew_eq h).2
  encode_ok := by
    intro k m enc shards n h hlen hn hsz
    obtain ⟨he, hk, _⟩ := mirrorNew_eq h
    subst he
    have hh := hsz _ (headD_mem (by omega))
    simp only [reedsolomon.mirrorEncoder]
    rw [if_pos]
    · exact ⟨_, rfl⟩
    · refine ⟨hlen, by omega, ?_⟩
      rw [List.all_eq_true]
      intro s hs
      simp only [beq_iff_eq]
      rw [hsz s hs, hh]
  encode_length := by
    intro k m enc shards out h henc
    obtain ⟨he, hk, _⟩ := mirrorNew_eq h
    subst he
    obtain ⟨hlen, _, _, hout⟩ := mirrorEncode_eq henc
    rw [hout, List.length_append, List.length_take, List.length_replicate]
    omega
  encode_size := by
    intro k m enc shards out n h henc hsz s hs
    obtain ⟨he, hk, _⟩ := mirrorNew_eq h
    subst he
    obtain ⟨hlen, _, _, hout⟩ := mirrorEncode_eq henc
    rw [hout, List.mem_append] at hs
    rcases hs with hs | hs
    · exact hsz s (List.mem_of_mem_take hs)
    · rw [(List.mem_replicate.1 hs).2]
      exact hsz _ (headD_mem (by omega))
  encode_data := by
    intro k m enc shards out j h henc hj
    obtain ⟨he, hk, _⟩ := mirrorNew_eq h
    subst he
    obtain ⟨hlen, _, _, hout⟩ := mirrorEncode_eq henc
    rw [hout, List.getElem?_append_left (by rw [List.length_take]; omega),
      List.getElem?_take_of_lt hj]
  verify_encode := by
    intro k m enc shards out h henc
    obtain ⟨he, hk, _⟩ := mirrorNew_eq h
    subst he
    obtain ⟨hlen, hpos, hall, hout⟩ := mirrorEncode_eq henc
    have htl : (shards.take k).length = k := by
      rw [List.length_take]
      omega
    have hhead : out.headD [] = shards.headD [] := by
      rw [hout]
      cases shards with
      | nil => simp at hlen; omega
      | cons a t =>
        cases k with
        | zero => omega
        | succ k => simp
    have hdrop : out.drop k = List.replicate m (shards.headD []) := by
      rw [hout, List.drop_append_of_le_length (by omega), List.drop_of_length_le (by omega)]
      simp
    have hlen2 : out.length = k + m := by
      rw [hout, List.length_append, htl, List.length_replicate]
    have hall2 : ∀ s ∈ out, s.length = (shards.headD []).length := by
      intro s hs
      rw [hout, List.mem_append] at hs
      rcases hs with hs | hs
      · exact hall s (List.mem_of_mem_take hs)
      · rw [(List.mem_replicate.1 hs).2]
    simp only [reedsolomon.mirrorEncoder, hhead, hdrop, hlen2]
    simp only [decide_True, Bool.true_and, beq_self_eq_true, Bool.and_true, Bool.and_eq_true,
      decide_eq_true_eq, List.all_eq_true, beq_iff_eq]
    exact ⟨hpos, hall2⟩

/-! ## `Encode` and `Decode` -/

theorem Encode_spec {New : reedsolomon.Library} (hlaw : reedsolomon.Lawful New)
    {P : List Nat} {k m c : Nat} {enc : reedsolomon.Encoder} (hnew : New k m = some enc)
    (hc : 4 ≤ c) (hR : P.length + 4 + k * c < 2 ^ 32) :
    ∃ out, ReedSolomon.Encode New P k m c = some out ∧ enc.Verify out = true ∧
      out.length = k + m ∧
      (∀ s ∈ out, s.length = (P.length + 4 + k * c - 1) / (k * c) * c) ∧
      Layout (frame P) k c ((P.length + 4 + k * c - 1) / (k * c) * c) out := by
  obtain ⟨hk, hkm⟩ := hlaw.new_bounds k m enc hnew
  have hcg : c ≤ k * c := Nat.le_mul_of_pos_left c hk
  obtain ⟨data, hdata, hplaced⟩ := fillCells_placed P k m c hk hc hR (by omega)
  have hrpos : 1 ≤ (P.length + 4 + k * c - 1) / (k * c) := ceil_pos (by omega) (by omega)
  have hobjc : c ≤ (P.length + 4 + k * c - 1) / (k * c) * c := Nat.le_mul_of_pos_left c hrpos
  obtain ⟨out, hout⟩ := hlaw.encode_ok k m enc data _ hnew hplaced.1 (by omega) hplaced.2.1
  have hcn : (frame P).length ≤ (P.length + 4 + c - 1) / c * c := by
    rw [frame_length]
    exact ceil_mul_ge _ _ (by omega)
  have hL := hplaced.layout (Nat.le_add_right k m) hcn
  refine ⟨out, ?_, hlaw.verify_encode k m enc data out hnew hout, ?_, ?_, ?_⟩
  · simp only [ReedSolomon.Encode, hnew, hdata, hout]
  · rw [hlaw.encode_length k m enc data out hnew hout, hplaced.1]
  · exact hlaw.encode_size k m enc data out _ hnew hout hplaced.2.1
  · intro j hj
    obtain ⟨row, hrow, hrest⟩ := hL j hj
    exact ⟨row, (hlaw.encode_data k m enc data out j hnew hout hj).trans hrow, hrest⟩

theorem Encode_some_new {New : reedsolomon.Library} {P : List Nat} {k m c : Nat}
    {shards : List (List Nat)} (h : ReedSolomon.Encode New P k m c = some shards) :
    ∃ enc, New k m = some enc := by
  unfold ReedSolomon.Encode at h
  split at h
  · exact absurd h (by simp)
  · exact ⟨_, by assumption⟩

theorem sum_length_of_forall (l : List (List Nat)) (n : Nat) (h : ∀ s ∈ l, s.length = n) :
    (l.map List.length).sum = l.length * n := by
  induction l with
  | nil => simp
  | cons a t ih =>
    rw [List.map_cons, List.sum_cons, List.length_cons, h a (List.mem_cons_self a t),
      ih (fun s hs => h s (List.mem_cons_of_mem a hs))]
    ring

/-- C1: for every payload of 1 to 2^20 bytes, `k` in 1..16, `m` in 0..6 and
`cellSize` 4096 or 65536, with a library that keeps its contract and accepts
`(k, m)`: `Encode` returns shards, and `Decode` of exactly these shards returns
the payload. Payloads shorter than `cellSize - 4` are included. -/
theorem Decode_Encode_roundtrip (New : reedsolomon.Library) (hlaw : reedsolomon.Lawful New)
    (P : List Nat) (k m c : Nat) (hnew : (New k m).isSome = true)
    (hP1 : 1 ≤ P.length) (hP2 : P.length ≤ 2 ^ 20) (hk1 : 1 ≤ k) (hk2 : k ≤ 16)
    (hm : m ≤ 6) (hc : c = 4096 ∨ c = 65536) :
    ∃ shards, ReedSolomon.Encode New P k m c = some shards ∧
      ReedSolomon.Decode New shards k m c = some P := by
  obtain ⟨enc, henc⟩ := Option.isSome_iff_exists.1 hnew
  have hc4 : 4 ≤ c := by omega
  have hkc : k * c ≤ 16 * 65536 := Nat.mul_le_mul hk2 (by omega)
  have hR : P.length + 4 + k * c < 2 ^ 32 := by
    norm_num at hP2 ⊢
    omega
  obtain ⟨out, hout, hver, _, _, hL⟩ := Encode_spec hlaw henc hc4 hR
  refine ⟨out, hout, ?_⟩
  simp only [ReedSolomon.Decode, henc, hver, if_true]
  exact joinData_frame (by omega) hc4 hR hL

/-- Witness for C1: a 3-byte payload (shorter than `cellSize - 4`), `k = 2`,
`m = 1`, `cellSize = 4096`, with the stand-in library. -/
theorem Decode_Encode_roundtrip_witness :
    ∃ shards, ReedSolomon.Encode reedsolomon.mirrorNew [1, 2, 3] 2 1 4096 = some shards ∧
      ReedSolomon.Decode reedsolomon.mirrorNew shards 2 1 4096 = some [1, 2, 3] :=
  Decode_Encode_roundtrip reedsolomon.mirrorNew mirrorNew_lawful [1, 2, 3] 2 1 4096 rfl
    (by decide) (by decide) (by decide) (by decide) (by decide) (Or.inl rfl)

/-- C4: for `k ≥ 1`, a power-of-two `cellSize ≥ 4` and no `uint32` wrap, in the
output of `Encode` the byte at offset `o` of data shard `j` is byte
`((o / c) * k + j) * c + o % c` of `F` (the big-endian length followed by the
payload) when that index is below `actualSize`, and zero otherwise. -/
theorem Encode_layout (New : reedsolomon.Library) (hlaw : reedsolomon.Lawful New)
    (P : List Nat) (k m c : Nat) (shards : List (List Nat))
    (hk : 1 ≤ k) (hpow : ∃ e, c = 2 ^ e) (hc : 4 ≤ c)
    (hR : P.length + 4 + k * c < 2 ^ 32)
    (henc : ReedSolomon.Encode New P k m c = some shards)
    (j o : Nat) (hj : j < k) (ho : o < (P.length + 4 + k * c - 1) / (k * c) * c) :
    (shards.getD j []).getD o 0 =
      if ((o / c) * k + j) * c + o % c < P.length + 4 then
        (frame P).getD (((o / c) * k + j) * c + o % c) 0
      else 0 := by
  obtain ⟨enc, hnew⟩ := Encode_some_new henc
  obtain ⟨out, hout, _, _, _, hL⟩ := Encode_spec hlaw hnew hc hR
  have e : out = shards := Option.some.inj (hout.symm.trans henc)
  subst e
  obtain ⟨row, hrow, _, hbytes⟩ := hL j hj
  have hgd : out.getD j [] = row := by
    rw [List.getD_eq_getElem?_getD, hrow]
    rfl
  rw [hgd, hbytes o ho]
  unfold layoutByte
  rw [frame_length]

/-- Witness for C4: an 11-byte payload, `k = 2`, `m = 1`, `cellSize = 4`; byte 5
of data shard 1 is byte 13 of `F`, the payload byte `10`. -/
theorem Encode_layout_witness :
    (([[0, 0, 0, 11, 5, 6, 7, 8], [1, 2, 3, 4, 9, 10, 11, 0], [0, 0, 0, 11, 5, 6, 7, 8]] :
        List (List Nat)).getD 1 []).getD 5 0 =
      if ((5 / 4) * 2 + 1) * 4 + 5 % 4 < [1, 2, 3, 4, 5, 6, 7, 8, 9, 10, 11].length + 4 then
        (frame [1, 2, 3, 4, 5, 6, 7, 8, 9, 10, 11]).getD (((5 / 4) * 2 + 1) * 4 + 5 % 4) 0
      else 0 :=
  Encode_layout reedsolomon.mirrorNew mirrorNew_lawful [1, 2, 3, 4, 5, 6, 7, 8, 9, 10, 11] 2 1 4
    [[0, 0, 0, 11, 5, 6, 7, 8], [1, 2, 3, 4, 9, 10, 11, 0], [0, 0, 0, 11, 5, 6, 7, 8]]
    (by decide) ⟨2, rfl⟩ (by decide) (by decide) (by decide) 1 5 (by decide) (by decide)

/-- C5: for `k ≥ 1`, a power-of-two `cellSize ≥ 4` and no `uint32` wrap, a
successful `Encode` returns exactly `k + m` shards, each of
`objectSize = ⌈(|P| + 4) / (k * c)⌉ * c` bytes, `(k + m) * objectSize` bytes in
total. -/
theorem Encode_shape (New : reedsolomon.Library) (hlaw : reedsolomon.Lawful New)
    (P : List Nat) (k m c : Nat) (shards : List (List Nat))
    (hk : 1 ≤ k) (hpow : ∃ e, c = 2 ^ e) (hc : 4 ≤ c)
    (hR : P.length + 4 + k * c < 2 ^ 32)
    (henc : ReedSolomon.Encode New P k m c = some shards) :
    shards.length = k + m ∧
      (∀ s ∈ shards, s.length = (P.length + 4 + k * c - 1) / (k * c) * c) ∧
      (shards.map List.length).sum = (k + m) * ((P.length + 4 + k * c - 1) / (k * c) * c) := by
  obtain ⟨enc, hnew⟩ := Encode_some_new henc
  obtain ⟨out, hout, _, hlen, hsz, _⟩ := Encode_spec hlaw hnew hc hR
  have e : out = shards := Option.some.inj (hout.symm.trans henc)
  subst e
  refine ⟨hlen, hsz, ?_⟩
  rw [sum_length_of_forall out _ hsz, hlen]

/-- Witness for C5: a 2-byte payload, `k = 3`, `m = 2`, `cellSize = 8`: five
shards of 8 bytes. -/
theorem Encode_shape_witness :
    ([[0, 0, 0, 2, 1, 2, 0, 0], [0, 0, 0, 0, 0, 0, 0, 0], [0, 0, 0, 0, 0, 0, 0, 0],
        [0, 0, 0, 2, 1, 2, 0, 0], [0, 0, 0, 2, 1, 2, 0, 0]] : List (List Nat)).length = 3 + 2 ∧
      (∀ s ∈ ([[0, 0, 0, 2, 1, 2, 0, 0], [0, 0, 0, 0, 0, 0, 0, 0], [0, 0, 0, 0, 0, 0, 0, 0],
        [0, 0, 0, 2, 1, 2, 0, 0], [0, 0, 0, 2, 1, 2, 0, 0]] : List (List Nat)),
        s.length = ([1, 2].length + 4 + 3 * 8 - 1) / (3 * 8) * 8) ∧
      (([[0, 0, 0, 2, 1, 2, 0, 0], [0, 0, 0, 0, 0, 0, 0, 0], [0, 0, 0, 0, 0, 0, 0, 0],
        [0, 0, 0, 2, 1, 2, 0, 0], [0, 0, 0, 2, 1, 2, 0, 0]] : List (List Nat)).map
          List.length).sum = (3 + 2) * (([1, 2].length + 4 + 3 * 8 - 1) / (3 * 8) * 8) :=
  Encode_shape reedsolomon.mirrorNew mirrorNew_lawful [1, 2] 3 2 8
    [[0, 0, 0, 2, 1, 2, 0, 0], [0, 0, 0, 0, 0, 0, 0, 0], [0, 0, 0, 0, 0, 0, 0, 0],
      [0, 0, 0, 2, 1, 2, 0, 0], [0, 0, 0, 2, 1, 2, 0, 0]]
    (by decide) ⟨3, rfl⟩ (by decide) (by decide) (by decide)

/-! ## `ExtentNode.Append`: the agreement check -/

/-- C2 fails on the code: with three results that carry no error, the first and
the third reporting `Offsets = [0, 5]` and the second `Offsets = [0, 999]`, all
with the same `End`, the loop of `Append` leaves through `return nil,
result.Error` and returns a nil response with a nil error. -/
theorem Append_divergent_offsets_nil_error :
    node.Append_collect none (-1)
      [{ Error := none, Offsets := some [0, 5], End := 12 },
       { Error := none, Offsets := some [0, 999], End := 12 },
       { Error := none, Offsets := some [0, 5], End := 12 }] =
      node.Outcome.returned none none := by
  decide

/-! ## `SimplePolicy.AllocExtent` -/

/-- C3 fails on the code: of two nodes, node 1 the more recently heard from,
with `count = 1` and `keep = [1]`, node 2 is outside `keep`, yet `AllocExtent`
inspects only the first `count` sorted nodes and returns an error. -/
theorem AllocExtent_keep_in_front_fails :
    stream_manager.AllocExtent
      [{ NodeID := 1, free := 10, lastEcho := 2 }, { NodeID := 2, free := 10, lastEcho := 1 }]
      1 [1] = stream_manager.AllocResult.error "cannot find enough nodes" := by
  decide

/-! ## `ExtentNode.Seal` and `ExtentNode.CommitLength` -/

/-- C6 fails on the code: on every node, once an extent is registered,
`CommitLength` and `Seal` for it return the error "have extent, can not alloc
new"; so for extent 7 registered with commit length 10, `CommitLength` does not
answer `OK` with `Length = 10`. -/
theorem Seal_CommitLength_reject_registered :
    (∀ (en : node.ExtentNode) (extentID : Nat) (ex : node.Extent),
      (en.setExtent extentID ex).CommitLength { ExtentID := extentID } =
        node.Outcome.returned none (some "have extent, can not alloc new")) ∧
    (∀ (en : node.ExtentNode) (extentID : Nat) (ex : node.Extent) (commitLength : Nat),
      ((en.setExtent extentID ex).Seal
          { ExtentID := extentID, CommitLength := commitLength }).1 =
        node.Outcome.returned none (some "have extent, can not alloc new")) ∧
    ((node.ExtentNode.fresh 1).setExtent 7
        { ID := 7, commitLength := 10, isSeal := false, data := [] }).CommitLength
        { ExtentID := 7 } ≠
      node.Outcome.returned (some { Code := pb.Code.OK, Length := 10 }) none := by
  refine ⟨?_, ?_, by decide⟩
  · intro en extentID ex
    simp [node.ExtentNode.CommitLength, node.ExtentNode.getExtent, node.ExtentNode.setExtent,
      List.lookup]
  · intro en extentID ex commitLength
    simp [node.ExtentNode.Seal, node.ExtentNode.getExtent, node.ExtentNode.setExtent,
      List.lookup]

/-! ## `ExtentNode.ReplicateBlocks` -/

/-- C7: for an extent registered on the node, whatever `AppendWithWal` does:
when `req.Commit` differs from the extent's commit length, `ReplicateBlocks`
returns an error and the node is unchanged, so `AppendWithWal` had no effect and
the extent keeps its contents and commit length; when they are equal, it
returns `AppendWithWal`'s error, or `OK` with exactly the offsets and the end
`AppendWithWal` produced. -/
theorem ReplicateBlocks_commit_check
    (AppendWithWal : node.Extent → List (List Nat) → node.WalResult)
    (en : node.ExtentNode) (req : pb.ReplicateBlocksRequest) (ex : node.Extent)
    (hex : en.getExtent req.ExtentID = some ex) :
    (ex.commitLength ≠ req.Commit →
      (∃ msg, (en.ReplicateBlocks AppendWithWal req).1 =
        node.Outcome.returned none (some msg)) ∧
      (en.ReplicateBlocks AppendWithWal req).2 = en ∧
      (en.ReplicateBlocks AppendWithWal req).2.getExtent req.ExtentID = some ex) ∧
    (ex.commitLength = req.Commit →
      (en.ReplicateBlocks AppendWithWal req).1 =
        match (AppendWithWal ex req.Blocks).err with
        | some e => node.Outcome.returned none (some e)
        | none =>
          node.Outcome.returned
            (some { Code := pb.Code.OK, Offsets := (AppendWithWal ex req.Blocks).ret,
                    End := (AppendWithWal ex req.Blocks).endOffset }) none) := by
  constructor
  · intro hne
    have h : en.ReplicateBlocks AppendWithWal req =
        (node.Outcome.returned none
          (some "primary commitlength is different with replicates"), en) := by
      simp only [node.ExtentNode.ReplicateBlocks, hex, ne_eq, hne, not_false_eq_true, if_true]
    rw [h]
    exact ⟨⟨_, rfl⟩, rfl, hex⟩
  · intro heq
    simp only [node.ExtentNode.ReplicateBlocks, hex, ne_eq, heq, not_true_eq_false, if_false]
    cases (AppendWithWal ex req.Blocks).err <;> rfl

/-- Witness for C7: `sampleNode`, whose extent 7 has commit length 3, and
`sampleReplicate`, a request with `Commit = 3`. -/
theorem ReplicateBlocks_commit_check_witness :
    (node.sampleExtent.commitLength ≠ node.sampleReplicate.Commit →
      (∃ msg, (node.sampleNode.ReplicateBlocks node.appendAtEnd node.sampleReplicate).1 =
        node.Outcome.returned none (some msg)) ∧
      (node.sampleNode.ReplicateBlocks node.appendAtEnd node.sampleReplicate).2 =
        node.sampleNode ∧
      (node.sampleNode.ReplicateBlocks node.appendAtEnd node.sampleReplicate).2.getExtent
        node.sampleReplicate.ExtentID = some node.sampleExtent) ∧
    (node.sampleExtent.commitLength = node.sampleReplicate.Commit →
      (node.sampleNode.ReplicateBlocks node.appendAtEnd node.sampleReplicate).1 =
        match (node.appendAtEnd node.sampleExtent node.sampleReplicate.Blocks).err with
        | some e => node.Outcome.returned none (some e)
        | none =>
          node.Outcome.returned
            (some { Code := pb.Code.OK,
                    Offsets := (node.appendAtEnd node.sampleExtent
                      node.sampleReplicate.Blocks).ret,
                    End := (node.appendAtEnd node.sampleExtent
                      node.sampleReplicate.Blocks).endOffset }) none) :=
  ReplicateBlocks_commit_check node.appendAtEnd node.sampleNode node.sampleReplicate
    node.sampleExtent rfl

/-! ## `ExtentNode.RequireRecovery` and the recovery counter -/

theorem RequireRecovery_admitted (MaxConcurrentTask : Int) (en : node.ExtentNode)
    (task : pb.RecoveryTask) (extentInfo : pb.ExtentInfo) (target : node.CopyTarget)
    (hn : en.recoveryTaskNum < MaxConcurrentTask) (hs : extentInfo.SealedLength ≠ 0) :
    (en.RequireRecovery MaxConcurrentTask task extentInfo (Except.ok target)).1 =
        node.Outcome.returned (some { Code := pb.Code.OK, CodeDes := "" }) none ∧
      (en.RequireRecovery MaxConcurrentTask task extentInfo (Except.ok target)).2.spawned =
        { task := task, extentInfo := extentInfo, target := target } :: en.spawned ∧
      (en.RequireRecovery MaxConcurrentTask task extentInfo (Except.ok target)).2.copyTargets =
        target :: en.copyTargets ∧
      (en.RequireRecovery MaxConcurrentTask task extentInfo (Except.ok target)).2.running =
        en.running ∧
      (en.RequireRecovery MaxConcurrentTask task extentInfo
        (Except.ok target)).2.recoveryTaskNum = en.recoveryTaskNum := by
  simp only [node.ExtentNode.RequireRecovery, hn, hs, if_true, if_false]
  split_ifs <;> simp

theorem run_requireRecovery (MaxConcurrentTask : Int) (task : pb.RecoveryTask)
    (extentInfo : pb.ExtentInfo) (target : node.CopyTarget)
    (hs : extentInfo.SealedLength ≠ 0) (j : Nat) :
    ∀ en : node.ExtentNode, en.recoveryTaskNum < MaxConcurrentTask →
      (en.run MaxConcurrentTask (List.replicate j
        (node.Event.requireRecovery task extentInfo (Except.ok target)))).inFlight =
        en.inFlight + j := by
  induction j with
  | zero =>
    intro en _
    rfl
  | succ j ih =>
    intro en hn
    obtain ⟨_, h2, _, h4, h5⟩ :=
      RequireRecovery_admitted MaxConcurrentTask en task extentInfo target hn hs
    rw [List.replicate_succ, node.ExtentNode.run, List.foldl_cons]
    have := ih (en.step MaxConcurrentTask
      (node.Event.requireRecovery task extentInfo (Except.ok target)))
      (by rw [node.ExtentNode.step, h5]; exact hn)
    rw [node.ExtentNode.run] at this
    rw [this]
    simp only [node.ExtentNode.inFlight, node.ExtentNode.step, h2, h4, List.length_cons]
    omega

/-- C8 fails on the code: the counter is incremented by the worker, not by
`RequireRecovery`. With `MaxConcurrentTask = M + 1`, on a fresh node `M + 2`
calls of `RequireRecovery` before any created worker begins to run are all
admitted, and `M + 2` workers are created and not yet returned. -/
theorem recovery_workers_exceed_cap (M : Nat) :
    ((node.ExtentNode.fresh 1).run ((M : Int) + 1) (List.replicate (M + 2)
      (node.Event.requireRecovery { ExtentID := 7, ReplaceID := 3 } node.sampleInfo
        (Except.ok node.sampleTarget)))).inFlight = M + 2 := by
  have h := run_requireRecovery ((M : Int) + 1) { ExtentID := 7, ReplaceID := 3 }
    node.sampleInfo node.sampleTarget (by decide) (M + 2) (node.ExtentNode.fresh 1)
    (by show (0 : Int) < (M : Int) + 1; omega)
  rw [h]
  simp [node.ExtentNode.inFlight, node.ExtentNode.fresh]

/-- C9 fails on the code: the test `FindReplaceSlot(...) == -1` only logs and
falls through. On a fresh node with `MaxConcurrentTask = M + 1`, for extent 7
sealed at 100 bytes on nodes 1, 2 and 3, a task with `ReplaceID = 9` occupies no
slot, yet `RequireRecovery` answers `OK`, allocates the copy target and creates
a recovery worker. -/
theorem RequireRecovery_obsolete_task_spawns (M : Nat) :
    stream_manager.FindReplaceSlot node.sampleInfo 9 = -1 ∧
    (node.ExtentNode.fresh 1).RequireRecovery ((M : Int) + 1) { ExtentID := 7, ReplaceID := 9 }
        node.sampleInfo (Except.ok node.sampleTarget) =
      (node.Outcome.returned (some { Code := pb.Code.OK, CodeDes := "" }) none,
        { node.ExtentNode.fresh 1 with
          logged := ["task is not valid to info"]
          copyTargets := [node.sampleTarget]
          spawned := [{ task := { ExtentID := 7, ReplaceID := 9 },
                        extentInfo := node.sampleInfo, target := node.sampleTarget }] }) := by
  refine ⟨by decide, ?_⟩
  have hn : (node.ExtentNode.fresh 1).recoveryTaskNum < (M : Int) + 1 := by
    show (0 : Int) < (M : Int) + 1
    omega
  have hf : stream_manager.FindReplaceSlot node.sampleInfo
      ({ ExtentID := 7, ReplaceID := 9 } : pb.RecoveryTask).ReplaceID = -1 := by decide
  have hs : ¬ (node.sampleInfo.SealedLength = 0) := by decide
  simp only [node.ExtentNode.RequireRecovery, hn, hf, hs, if_true, if_false]
  rfl

/-! ## `ExtentNode.CopyExtent` -/

/-- C10 as stated fails on the code: `CopyExtent` compares the commit length
with `uint32(SealedLength)`. For an open extent of 7 bytes and
`SealedLength = 2 ^ 32 + 5` the commit length is below `SealedLength`, yet the
extent is sealed at 5 bytes and an `OK` header with `PayloadLen = 5` is sent. -/
theorem CopyExtent_wide_SealedLength :
    node.sampleOpenNode.getExtent 7 = some node.sampleOpenExtent ∧
    node.sampleOpenExtent.isSeal = false ∧
    node.sampleOpenExtent.commitLength < node.sampleWideInfo.SealedLength ∧
    (node.sampleOpenNode.CopyExtent { ExtentID := 7 } (some node.sampleWideInfo)
      []).headerOK = true ∧
    (node.sampleOpenNode.CopyExtent { ExtentID := 7 } (some node.sampleWideInfo)
      []).payloadLen = some 5 ∧
    ¬ ((node.sampleOpenNode.CopyExtent { ExtentID := 7 } (some node.sampleWideInfo)
        []).headerOK = true ↔
      (node.sampleOpenExtent.isSeal = false ∧
        node.sampleOpenExtent.commitLength ≥ node.sampleWideInfo.SealedLength) ∨
      (node.sampleOpenExtent.isSeal = true ∧
        node.sampleOpenExtent.commitLength = node.sampleWideInfo.SealedLength)) := by
  decide

/-- C10, amended: for a `SealedLength` below `2 ^ 32`, with the extent `ex`
registered and its `ExtentInfo` present, `CopyExtent` sends an `OK` header
exactly when the extent was open with `CommitLength ≥ SealedLength` or sealed
with `CommitLength = SealedLength`; an open extent with
`CommitLength ≥ SealedLength` is first sealed at `SealedLength`; whenever the
`OK` header is sent its `PayloadLen` is `SealedLength` and the extent is sealed
with that commit length; otherwise a single error header is sent, no payload,
and the node is as it was. -/
theorem CopyExtent_header (en : node.ExtentNode) (req : pb.CopyExtentRequest)
    (ex : node.Extent) (info : pb.ExtentInfo) (reads : List (List Nat))
    (hex : en.getExtent req.ExtentID = some ex) (hSL : info.SealedLength < 2 ^ 32) :
    ((en.CopyExtent req (some info) reads).headerOK = true ↔
      (ex.isSeal = false ∧ ex.commitLength ≥ info.SealedLength) ∨
      (ex.isSeal = true ∧ ex.commitLength = info.SealedLength)) ∧
    (ex.isSeal = false → ex.commitLength ≥ info.SealedLength →
      (en.CopyExtent req (some info) reads).en =
        en.setExtent req.ExtentID (ex.Seal info.SealedLength).1) ∧
    ((en.CopyExtent req (some info) reads).headerOK = true →
      (en.CopyExtent req (some info) reads).payloadLen = some info.SealedLength ∧
      ∃ ex1, (en.CopyExtent req (some info) reads).en.getExtent req.ExtentID = some ex1 ∧
        ex1.isSeal = true ∧ ex1.commitLength = info.SealedLength) ∧
    ((en.CopyExtent req (some info) reads).headerOK = false →
      (en.CopyExtent req (some info) reads).hasPayload = false ∧
      (en.CopyExtent req (some info) reads).en = en ∧
      ∃ des, (en.CopyExtent req (some info) reads).sent =
        [pb.CopyExtentResponse.Header pb.Code.ERROR des 0]) := by
  have hmod : info.SealedLength % 4294967296 = info.SealedLength := Nat.mod_eq_of_lt hSL
  have hex1 : List.lookup req.ExtentID en.extentMap = some ex := hex
  cases hseal : ex.isSeal
  · by_cases hge : ex.commitLength ≥ info.SealedLength
    · have hlt : ¬ ex.commitLength < info.SealedLength := by omega
      simp [node.ExtentNode.CopyExtent, node.CopyResult.headerOK, node.CopyResult.payloadLen,
        node.Extent.Seal, node.ExtentNode.getExtent, node.ExtentNode.setExtent, List.lookup,
        hex, hex1, hmod, hseal, hge, hlt]
    · simp [node.ExtentNode.CopyExtent, node.CopyResult.headerOK, node.CopyResult.payloadLen,
        node.CopyResult.hasPayload, node.ConvertToPBCode, node.ExtentNode.getExtent, hex1, hmod, hseal, hge]
  · by_cases heq : ex.commitLength = info.SealedLength
    · simp [node.ExtentNode.CopyExtent, node.CopyResult.headerOK, node.CopyResult.payloadLen,
        node.ExtentNode.getExtent, hex1, hmod, hseal, heq]
    · simp [node.ExtentNode.CopyExtent, node.CopyResult.headerOK, node.CopyResult.payloadLen,
        node.CopyResult.hasPayload, node.ConvertToPBCode, node.ExtentNode.getExtent, hex1, hmod, hseal, heq]

/-- Witness for C10, amended: node 1 with an open extent 7 of 7 bytes and
`SealedLength = 5`; the extent is sealed at 5 bytes and the `OK` header
announces 5 bytes. -/
theorem CopyExtent_header_witness :
    (node.sampleOpenNode.CopyExtent { ExtentID := 7 } (some node.sampleShortInfo)
        [[1, 2, 3, 4, 5]]).headerOK = true ∧
      (node.sampleOpenNode.CopyExtent { ExtentID := 7 } (some node.sampleShortInfo)
        [[1, 2, 3, 4, 5]]).payloadLen = some 5 ∧
      (node.sampleOpenNode.CopyExtent { ExtentID := 7 } (some node.sampleShortInfo)
        [[1, 2, 3, 4, 5]]).en.getExtent 7 =
        some { ID := 7, commitLength := 5, isSeal := true, data := [1, 2, 3, 4, 5] } :=
  have h := CopyExtent_header node.sampleOpenNode { ExtentID := 7 } node.sampleOpenExtent
    node.sampleShortInfo [[1, 2, 3, 4, 5]] rfl (by decide)
  ⟨h.1.2 (Or.inl ⟨rfl, by decide⟩), (h.2.2.1 (h.1.2 (Or.inl ⟨rfl, by decide⟩))).1,
    by rw [h.2.1 rfl (by decide)]; decide⟩

/-! ## `SimplePolicy.AllocExtent`: too few nodes -/

theorem take_filter_length_le (p : stream_manager.NodeStatus → Bool)
    (l : List stream_manager.NodeStatus) (n : Nat) :
    ((l.take n).filter p).length ≤ (l.filter p).length :=
  ((List.take_sublist n l).filter p).length_le

theorem sortNodes_filter_length (p : stream_manager.NodeStatus → Bool)
    (l : List stream_manager.NodeStatus) :
    ((stream_manager.sortNodes l).filter p).length = (l.filter p).length :=
  ((List.perm_insertionSort _ l).filter p).length_eq

/-- C11: for every list of nodes, every `count ≥ 1` and every keep list, when
fewer than `count` of the nodes have a `NodeID` outside `keep`,
`AllocExtent` returns an error and no node list. -/
theorem AllocExtent_too_few_nodes (ns : List stream_manager.NodeStatus) (count : Int)
    (keepNodes : List Nat) (hcount : 1 ≤ count)
    (hfew : ((ns.filter (fun n => !(keepNodes.contains n.NodeID))).length : Int) < count) :
    ∃ msg, stream_manager.AllocExtent ns count keepNodes =
      stream_manager.AllocResult.error msg := by
  unfold stream_manager.AllocExtent
  by_cases h1 : ((stream_manager.sortNodes ns).length : Int) < count
  · exact ⟨"not enough nodes", by simp only [h1, if_true]⟩
  · have h2 := take_filter_length_le (fun n => !(keepNodes.contains n.NodeID))
      (stream_manager.sortNodes ns) count.toNat
    have h3 := sortNodes_filter_length (fun n => !(keepNodes.contains n.NodeID)) ns
    have h4 : ((List.filter (fun n => !(keepNodes.contains n.NodeID))
        (List.take count.toNat (stream_manager.sortNodes ns))).length : Int) < count := by
      omega
    exact ⟨"cannot find enough nodes", by simp only [h1, if_false, h4, if_true]⟩

/-- Witness for C11: two nodes, `count = 2`, `keep = [1]`; only node 2 is
outside `keep`. -/
theorem AllocExtent_too_few_nodes_witness :
    ∃ msg, stream_manager.AllocExtent
      [{ NodeID := 1, free := 10, lastEcho := 2 }, { NodeID := 2, free := 10, lastEcho := 1 }]
      2 [1] = stream_manager.AllocResult.error msg :=
  AllocExtent_too_few_nodes
    [{ NodeID := 1, free := 10, lastEcho := 2 }, { NodeID := 2, free := 10, lastEcho := 1 }]
    2 [1] (by decide) (by decide)

/-! ## `ExtentNode.chooseECAliveNode` -/

theorem chooseECLoop_active (healthy : String → Bool) (except : Nat) :
    ∀ (slots : List (Nat × String)) (i : Nat) (conns : List (Option String))
      (activeConns : Nat) (missingIndex : Int),
      (node.chooseECLoop healthy except slots i conns activeConns missingIndex).2.1 =
        activeConns +
          (slots.filter (fun slot => decide (slot.1 ≠ except) && healthy slot.2)).length := by
  intro slots
  induction slots with
  | nil =>
    intro i conns activeConns missingIndex
    simp [node.chooseECLoop]
  | cons slot rest ih =>
    intro i conns activeConns missingIndex
    obtain ⟨nodeID, addr⟩ := slot
    by_cases h1 : nodeID = except
    · simp [node.chooseECLoop, h1, ih]
    · by_cases h2 : healthy addr = true
      · simp [node.chooseECLoop, h1, h2, ih]
        omega
      · simp [node.chooseECLoop, h1, h2, ih]

/-- C13: with the `k + m` peer addresses known, `chooseECAliveNode` returns a
connection list exactly when the number of healthy peers in the slots of
`Replicates ++ Parity` other than `ReplaceID`'s is `k = len(Replicates)`; when
fewer or more than `k` are healthy it returns nil, and `recoveryErasureExtent`
fails the attempt with "can not find remote nodes". -/
theorem chooseECAliveNode_exactly_k (addrs : List String) (healthy : String → Bool)
    (extentInfo : pb.ExtentInfo) (task : pb.RecoveryTask)
    (transfer : List (Option String) → Int → node.Attempt)
    (hlen : addrs.length = extentInfo.Replicates.length + extentInfo.Parity.length) :
    ((∃ conns missingIndex,
        node.ExtentNode.chooseECAliveNode (some addrs) healthy extentInfo task.ReplaceID =
          node.Chosen.returned (some conns) missingIndex) ↔
      node.aliveOthers addrs healthy extentInfo task.ReplaceID =
        extentInfo.Replicates.length) ∧
    (node.aliveOthers addrs healthy extentInfo task.ReplaceID < extentInfo.Replicates.length ∨
      extentInfo.Replicates.length < node.aliveOthers addrs healthy extentInfo task.ReplaceID →
      (∃ missingIndex,
        node.ExtentNode.chooseECAliveNode (some addrs) healthy extentInfo task.ReplaceID =
          node.Chosen.returned none missingIndex) ∧
      node.ExtentNode.recoveryErasureExtent (some addrs) healthy extentInfo task transfer =
        node.Attempt.returned (some "ErasureExtent: can not find remote nodes")) := by
  have hact := chooseECLoop_active healthy task.ReplaceID
    ((extentInfo.Replicates ++ extentInfo.Parity).zip addrs) 0 [] 0 (-1)
  rw [Nat.zero_add] at hact
  have hne : ¬ (addrs.length ≠ extentInfo.Replicates.length + extentInfo.Parity.length) := by
    simp [hlen]
  by_cases hk : node.aliveOthers addrs healthy extentInfo task.ReplaceID =
      extentInfo.Replicates.length
  · have hk1 : (node.chooseECLoop healthy task.ReplaceID
        ((extentInfo.Replicates ++ extentInfo.Parity).zip addrs) 0 [] 0 (-1)).2.1 =
        extentInfo.Replicates.length := hact.trans hk
    have hc : node.ExtentNode.chooseECAliveNode (some addrs) healthy extentInfo
        task.ReplaceID = node.Chosen.returned (some (node.chooseECLoop healthy task.ReplaceID
          ((extentInfo.Replicates ++ extentInfo.Parity).zip addrs) 0 [] 0 (-1)).1)
          (node.chooseECLoop healthy task.ReplaceID
          ((extentInfo.Replicates ++ extentInfo.Parity).zip addrs) 0 [] 0 (-1)).2.2 := by
      simp only [node.ExtentNode.chooseECAliveNode, hne, if_false, hk1, if_true]
    refine ⟨⟨fun _ => hk, fun _ => ⟨_, _, hc⟩⟩, ?_⟩
    intro h
    omega
  · have hk1 : ¬ ((node.chooseECLoop healthy task.ReplaceID
        ((extentInfo.Replicates ++ extentInfo.Parity).zip addrs) 0 [] 0 (-1)).2.1 =
        extentInfo.Replicates.length) := fun h => hk (hact.symm.trans h)
    have hc : node.ExtentNode.chooseECAliveNode (some addrs) healthy extentInfo
        task.ReplaceID = node.Chosen.returned none (node.chooseECLoop healthy task.ReplaceID
          ((extentInfo.Replicates ++ extentInfo.Parity).zip addrs) 0 [] 0 (-1)).2.2 := by
      simp only [node.ExtentNode.chooseECAliveNode, hne, if_false, hk1]
    refine ⟨⟨fun ⟨conns, mi, h⟩ => ?_, fun h => absurd h hk⟩, fun _ => ⟨⟨_, hc⟩, ?_⟩⟩
    · rw [hc] at h
      simp at h
    · simp only [node.ExtentNode.recoveryErasureExtent, hc]

/-- Witness for C13: `k = 2`, `m = 2`, the slot of node 4 is rebuilt and the
peer `n2` is down, so exactly two other peers are healthy. -/
theorem chooseECAliveNode_exactly_k_witness :
    ((∃ conns missingIndex,
        node.ExtentNode.chooseECAliveNode (some node.sampleAddrs) (fun addr => addr != "n2")
            node.sampleECInfo ({ ExtentID := 7, ReplaceID := 4 } : pb.RecoveryTask).ReplaceID =
          node.Chosen.returned (some conns) missingIndex) ↔
      node.aliveOthers node.sampleAddrs (fun addr => addr != "n2") node.sampleECInfo
          ({ ExtentID := 7, ReplaceID := 4 } : pb.RecoveryTask).ReplaceID =
        node.sampleECInfo.Replicates.length) ∧
    (node.aliveOthers node.sampleAddrs (fun addr => addr != "n2") node.sampleECInfo
          ({ ExtentID := 7, ReplaceID := 4 } : pb.RecoveryTask).ReplaceID <
        node.sampleECInfo.Replicates.length ∨
      node.sampleECInfo.Replicates.length <
        node.aliveOthers node.sampleAddrs (fun addr => addr != "n2") node.sampleECInfo
          ({ ExtentID := 7, ReplaceID := 4 } : pb.RecoveryTask).ReplaceID →
      (∃ missingIndex,
        node.ExtentNode.chooseECAliveNode (some node.sampleAddrs) (fun addr => addr != "n2")
            node.sampleECInfo ({ ExtentID := 7, ReplaceID := 4 } : pb.RecoveryTask).ReplaceID =
          node.Chosen.returned none missingIndex) ∧
      node.ExtentNode.recoveryErasureExtent (some node.sampleAddrs)
          (fun addr => addr != "n2") node.sampleECInfo { ExtentID := 7, ReplaceID := 4 }
          (fun _ _ => node.Attempt.returned none) =
        node.Attempt.returned (some "ErasureExtent: can not find remote nodes")) :=
  chooseECAliveNode_exactly_k node.sampleAddrs (fun addr => addr != "n2") node.sampleECInfo
    { ExtentID := 7, ReplaceID := 4 } (fun _ _ => node.Attempt.returned none) rfl

/-! ## The end of `runRecoveryTask` -/

/-- C14 fails on the code: `runRecoveryTask` renames `targetFilePath` to the
`.ext` name and then opens `targetFilePath`, the path it has just renamed
away. Whenever the two paths differ the open finds no file, `utils.Check` ends
the worker, and no extent is registered; the file, if any, sits at the `.ext`
path. -/
theorem runRecoveryTask_opens_old_path (en : node.ExtentNode) (fs : node.FileSystem)
    (targetFilePath : node.Path)
    (hne : node.extentFileName targetFilePath ≠ targetFilePath) :
    en.runRecoveryTask_finish fs targetFilePath = none ∧
      ∀ fs1, fs.Rename targetFilePath (node.extentFileName targetFilePath) = some fs1 →
        fs1 (node.extentFileName targetFilePath) = fs targetFilePath ∧
        node.OpenExtent fs1 targetFilePath = none := by
  have hopen : ∀ fs1, fs.Rename targetFilePath (node.extentFileName targetFilePath) =
      some fs1 → fs1 (node.extentFileName targetFilePath) = fs targetFilePath ∧
        node.OpenExtent fs1 targetFilePath = none := by
    intro fs1 h
    unfold node.FileSystem.Rename at h
    cases hf : fs targetFilePath with
    | none => simp [hf] at h
    | some file =>
      simp only [hf, Option.some.injEq] at h
      subst h
      simp [node.OpenExtent, Ne.symm hne]
  refine ⟨?_, hopen⟩
  unfold node.ExtentNode.runRecoveryTask_finish
  cases hr : fs.Rename targetFilePath (node.extentFileName targetFilePath) with
  | none => rfl
  | some fs1 => simp only [(hopen fs1 hr).2]

/-- Witness for C14: the recovered extent 7 sits at `disk0/7/7.copy`; the
worker renames it to `disk0/7.ext`, opens `disk0/7/7.copy` and stops. -/
theorem runRecoveryTask_opens_old_path_witness :
    (node.ExtentNode.fresh 1).runRecoveryTask_finish node.sampleFS node.sampleTargetPath =
        none ∧
      ∀ fs1, node.sampleFS.Rename node.sampleTargetPath
          (node.extentFileName node.sampleTargetPath) = some fs1 →
        fs1 (node.extentFileName node.sampleTargetPath) =
          node.sampleFS node.sampleTargetPath ∧
        node.OpenExtent fs1 node.sampleTargetPath = none :=
  runRecoveryTask_opens_old_path (node.ExtentNode.fresh 1) node.sampleFS
    node.sampleTargetPath (by decide)

/-! ## The syncing file's watermark -/

theorem syncPoint_eq (L A N : Nat) : storage.syncPoint L A N = A * ((N - L) / A) := by
  unfold storage.syncPoint
  have h := Nat.div_add_mod (N - L) A
  omega

theorem syncPoint_mono (L A : Nat) {N N1 : Nat} (h : N ≤ N1) :
    storage.syncPoint L A N ≤ storage.syncPoint L A N1 := by
  rw [syncPoint_eq, syncPoint_eq]
  exact Nat.mul_le_mul_left A (Nat.div_le_div_right (Nat.sub_le_sub_right h L))

theorem Write_lag (L A B : Nat) (hB : 0 < B) (f : storage.SyncingFile) (n : Nat)
    (hb : f.bytesPerSync = B)
    (h0 : f.offset ≤ L → f.syncOffset = 0)
    (h1 : L < f.offset → f.syncOffset ≤ storage.syncPoint L A f.offset ∧
      storage.syncPoint L A f.offset - f.syncOffset < B) :
    (f.Write L A n).bytesPerSync = B ∧ (f.Write L A n).offset = f.offset + n ∧
      ((f.Write L A n).offset ≤ L → (f.Write L A n).syncOffset = 0) ∧
      (L < (f.Write L A n).offset →
        (f.Write L A n).syncOffset ≤ storage.syncPoint L A (f.Write L A n).offset ∧
        storage.syncPoint L A (f.Write L A n).offset - (f.Write L A n).syncOffset < B) := by
  have hB0 : ¬ (B = 0) := by omega
  have hs : f.syncOffset ≤ storage.syncPoint L A (f.offset + n) := by
    by_cases hl : f.offset ≤ L
    · rw [h0 hl]
      exact Nat.zero_le _
    · exact le_trans (h1 (by omega)).1 (syncPoint_mono L A (Nat.le_add_right _ _))
  by_cases c1 : f.offset + n ≤ L
  · have hw : f.Write L A n = { f with offset := f.offset + n } := by
      simp only [storage.SyncingFile.Write, hb, hB0, if_false, c1, if_true]
    rw [hw]
    exact ⟨hb, rfl, fun _ => h0 (by omega), fun h => absurd c1 (by simpa using h)⟩
  · by_cases c2 : storage.syncPoint L A (f.offset + n) - f.syncOffset < B
    · have hw : f.Write L A n = { f with offset := f.offset + n } := by
        have c2a := c2
        unfold storage.syncPoint at c2a
        simp only [storage.SyncingFile.Write, hb, hB0, if_false, c1, c2a, if_true]
      rw [hw]
      exact ⟨hb, rfl, fun h => absurd h c1, fun _ => ⟨hs, c2⟩⟩
    · have hlt : f.syncOffset < storage.syncPoint L A (f.offset + n) := by omega
      have hw : f.Write L A n =
          { f with offset := f.offset + n,
                   syncOffset := storage.syncPoint L A (f.offset + n) } := by
        have c2a := c2
        have hlta := hlt
        unfold storage.syncPoint at c2a hlta
        simp only [storage.SyncingFile.Write, hb, hB0, if_false, c1, c2a,
          storage.SyncingFile.ratchetSyncOffset, hlta, if_true, storage.syncPoint]
      rw [hw]
      refine ⟨hb, rfl, fun h => absurd h c1, fun _ => ⟨Nat.le_refl _, ?_⟩⟩
      simpa using hB

theorem writeAll_lag (L A B : Nat) (hB : 0 < B) (writes : List Nat) :
    ∀ f : storage.SyncingFile, f.bytesPerSync = B →
      (f.offset ≤ L → f.syncOffset = 0) →
      (L < f.offset → f.syncOffset ≤ storage.syncPoint L A f.offset ∧
        storage.syncPoint L A f.offset - f.syncOffset < B) →
      (f.writeAll L A writes).offset = f.offset + storage.written writes ∧
      ((f.writeAll L A writes).offset ≤ L → (f.writeAll L A writes).syncOffset = 0) ∧
      (L < (f.writeAll L A writes).offset →
        (f.writeAll L A writes).syncOffset ≤
          storage.syncPoint L A (f.writeAll L A writes).offset ∧
        storage.syncPoint L A (f.writeAll L A writes).offset -
          (f.writeAll L A writes).syncOffset < B) := by
  induction writes with
  | nil =>
    intro f _ h0 h1
    exact ⟨by simp [storage.SyncingFile.writeAll, storage.written], h0, h1⟩
  | cons n rest ih =>
    intro f hb h0 h1
    obtain ⟨hb1, ho1, h01, h11⟩ := Write_lag L A B hB f n hb h0 h1
    obtain ⟨r1, r2, r3⟩ := ih (f.Write L A n) hb1 h01 h11
    have e : f.writeAll L A (n :: rest) = (f.Write L A n).writeAll L A rest := rfl
    rw [e]
    refine ⟨?_, r2, r3⟩
    rw [r1, ho1]
    simp only [storage.written, List.sum_cons]
    omega

/-- C12 as stated fails against the test: `TestSyncingFile` expects the
watermark 0 after the first write of `N = 1 MiB` with `B = 8 KiB`, and
`⌊N / B⌋ * B` is 1 MiB, so an implementation whose watermark is `⌊N / B⌋ * B`
fails the test; the watermark of `Write` with a 1 MiB buffer and 4 KiB
alignment passes the whole test, and after the first write it is 0. -/
theorem TestSyncingFile_first_write_not_floor :
    storage.testCases.head? = some (storage.mb, 0) ∧
    storage.written [storage.mb] / (8 <<< 10) * (8 <<< 10) = storage.mb ∧
    storage.mb ≠ 0 ∧
    storage.TestSyncingFile storage.SyncingFile.WriteFloor = false ∧
    storage.TestSyncingFile (storage.SyncingFile.Write (1 <<< 20) (4 <<< 10)) = true ∧
    ((storage.NewSyncingFile { BytesPerSync := 8 <<< 10, PreallocateSize := 0 }).writeAll
        (1 <<< 20) (4 <<< 10) [storage.mb]).syncOffset ≠
      storage.written [storage.mb] / (8 <<< 10) * (8 <<< 10) := by
  decide

/-- C12, amended: for every sequence of `Write` calls on a new syncing file
with `BytesPerSync = B > 0`, sync-range buffer `L` and alignment `A`, once the
writes total `N` bytes the watermark is 0 while `N ≤ L`; beyond that it is at
most the sync point, `N - L` rounded down to `A`, and less than `B` below it. -/
theorem SyncingFile_watermark_lag (L A B : Nat) (writes : List Nat) (hB : 0 < B) :
    ((storage.NewSyncingFile { BytesPerSync := B, PreallocateSize := 0 }).writeAll L A
        writes).offset = storage.written writes ∧
    (storage.written writes ≤ L →
      ((storage.NewSyncingFile { BytesPerSync := B, PreallocateSize := 0 }).writeAll L A
        writes).syncOffset = 0) ∧
    (L < storage.written writes →
      ((storage.NewSyncingFile { BytesPerSync := B, PreallocateSize := 0 }).writeAll L A
        writes).syncOffset ≤ storage.syncPoint L A (storage.written writes) ∧
      storage.syncPoint L A (storage.written writes) -
        ((storage.NewSyncingFile { BytesPerSync := B, PreallocateSize := 0 }).writeAll L A
          writes).syncOffset < B) := by
  obtain ⟨r1, r2, r3⟩ := writeAll_lag L A B hB writes
    (storage.NewSyncingFile { BytesPerSync := B, PreallocateSize := 0 }) rfl
    (fun _ => rfl) (fun h => absurd h (by simp [storage.NewSyncingFile]))
  have e : ((storage.NewSyncingFile { BytesPerSync := B, PreallocateSize := 0 }).writeAll L A
      writes).offset = storage.written writes := by
    rw [r1]
    simp [storage.NewSyncingFile]
  rw [e] at r2 r3
  exact ⟨e, r2, r3⟩

/-- Witness for C12, amended: the test's `B = 8 KiB` and writes, with a buffer
of 1 MiB and an alignment of 4 KiB. -/
theorem SyncingFile_watermark_lag_witness :
    ((storage.NewSyncingFile { BytesPerSync := 8192, PreallocateSize := 0 }).writeAll
        1048576 4096 [1048576, 1048576, 4096, 4096, 8192, 16384]).offset =
      storage.written [1048576, 1048576, 4096, 4096, 8192, 16384] ∧
    (storage.written [1048576, 1048576, 4096, 4096, 8192, 16384] ≤ 1048576 →
      ((storage.NewSyncingFile { BytesPerSync := 8192, PreallocateSize := 0 }).writeAll
        1048576 4096 [1048576, 1048576, 4096, 4096, 8192, 16384]).syncOffset = 0) ∧
    (1048576 < storage.written [1048576, 1048576, 4096, 4096, 8192, 16384] →
      ((storage.NewSyncingFile { BytesPerSync := 8192, PreallocateSize := 0 }).writeAll
        1048576 4096 [1048576, 1048576, 4096, 4096, 8192, 16384]).syncOffset ≤
        storage.syncPoint 1048576 4096
          (storage.written [1048576, 1048576, 4096, 4096, 8192, 16384]) ∧
      storage.syncPoint 1048576 4096
          (storage.written [1048576, 1048576, 4096, 4096, 8192, 16384]) -
        ((storage.NewSyncingFile { BytesPerSync := 8192, PreallocateSize := 0 }).writeAll
          1048576 4096 [1048576, 1048576, 4096, 4096, 8192, 16384]).syncOffset < 8192) :=
  SyncingFile_watermark_lag 1048576 4096 8192 [1048576, 1048576, 4096, 4096, 8192, 16384]
    (by decide)

end Autumn
